import Mathlib

/-!
Verification of the RIS literature-curation pipeline: the record model
(parse/serialize of the line-oriented RIS exchange format), the DOI-based
deduplicator, and the rule-based filter stages.

Strings are modelled as lists of characters (`Str`); a text file is modelled
as its list of lines (newline characters are not part of a line).  Python's
whitespace handling (`str.strip`, `\s`) is modelled over the ASCII whitespace
characters, and `str.lower` over ASCII letters.  Regular-expression searches
over free text are modelled as boolean-valued search functions passed in as
rule data, except where a claim depends on one concrete pattern, which is then
implemented directly.  A Python runtime error (such as `ZeroDivisionError`) is
modelled by an `Option` result, `none` standing for the raised exception.
-/

/-- Strings of the embedded programs: lists of characters. -/
abbrev Str := List Char

/-- Converts a Lean string literal to an embedded string. -/
def str (s : String) : Str := s.data

/-- ASCII whitespace, the characters stripped by Python's `str.strip()` and
matched by the regex class `\s`. -/
def isWs (c : Char) : Bool :=
  c = ' ' || c = '\t' || c = '\n' || c = '\r' || c = '\x0b' || c = '\x0c'

/-- Python `str.strip()`: drop whitespace from both ends. -/
def trimStr (s : Str) : Str :=
  ((s.dropWhile isWs).reverse.dropWhile isWs).reverse

/-- Python `str.lower()` (ASCII letters). -/
def lowerStr (s : Str) : Str := s.map Char.toLower

/-- Python `s.startswith(p)`. -/
def strStartsWith : Str → Str → Bool
  | _, [] => true
  | [], _ :: _ => false
  | c :: cs, p :: ps => c = p && strStartsWith cs ps

/-- Python `p in s` (substring containment). -/
def hasSub (pat : Str) : Str → Bool
  | [] => strStartsWith [] pat
  | c :: cs => strStartsWith (c :: cs) pat || hasSub pat cs

/-- Python `s.split(pat, 1)` when `pat` occurs in `s`: split at the first
occurrence of the separator `"  - "`.  Returns `none` when the separator does
not occur. -/
def splitSep : Str → Option (Str × Str)
  | [] => none
  | c :: cs =>
    if strStartsWith (c :: cs) (str "  - ") then some ([], (c :: cs).drop 4)
    else
      match splitSep cs with
      | some (a, b) => some (c :: a, b)
      | none => none

/-- Python `line.rstrip('\n\r')`. -/
def rstripNL (l : Str) : Str :=
  (l.reverse.dropWhile (fun c => c = '\n' || c = '\r')).reverse

/-- Python `line.rstrip('\n')`. -/
def rstripN (l : Str) : Str :=
  (l.reverse.dropWhile (fun c => c = '\n')).reverse

/-- Lookup in an insertion-ordered association list (a Python `dict`). -/
def alookup {α : Type _} : List (Str × α) → Str → Option α
  | [], _ => none
  | p :: ps, t => if p.1 = t then some p.2 else alookup ps t

/-- Membership of an embedded string in a list of embedded strings. -/
def memStr (t : Str) : List Str → Bool
  | [] => false
  | s :: ss => s = t || memStr t ss

/-- Concatenation of the images of a list under a list-valued function. -/
def catMap {α β : Type _} (f : α → List β) : List α → List β
  | [] => []
  | x :: xs => f x ++ catMap f xs

/-- Python `' '.join(values)`. -/
def spaceJoin : List Str → Str
  | [] => []
  | [v] => v
  | v :: vs => v ++ ' ' :: spaceJoin vs

/-- Exact division over the rationals, modelling Python's `/`: `none` models
the `ZeroDivisionError` raised on a zero denominator. -/
def pyDiv (a b : ℚ) : Option ℚ :=
  if b = 0 then none else some (a / b)

namespace Step3
/-!
`Step3_merge_and_deduplicate.py`: RIS parser with continuation-line handling,
DOI normalization, and the DOI-keyed merge/deduplication pass.
-/

/-- A tag's stored value in the Step3 parser: a single string, turned into a
list once the tag repeats (`current_record[tag]` is `str` or `list`). -/
inductive RVal where
  | single (v : Str)
  | multi (vs : List Str)
deriving DecidableEq, Inhabited

/-- A record being accumulated by the Step3 parser: the `current_record`
dict, insertion-ordered. -/
abbrev RecB := List (Str × RVal)

/-- Parser state: emitted `records`, the `current_record`, and `current_tag`. -/
structure PState where
  records : List RecB
  current : RecB
  currentTag : Option Str
deriving DecidableEq

/-- Tag-line handling: `current_record[tag]` becomes a list on repetition
(`[old, value]`), or is appended to if already a list; a fresh tag stores the
bare value. -/
def appendTag3 (cur : RecB) (t v : Str) : RecB :=
  match alookup cur t with
  | some _ =>
    cur.map (fun p =>
      if p.1 = t then
        (p.1, match p.2 with
              | RVal.single u => RVal.multi [u, v]
              | RVal.multi vs => RVal.multi (vs ++ [v]))
      else p)
  | none => cur ++ [(t, RVal.single v)]

/-- Continuation-line handling: `' ' + line.strip()` is appended to
`current_record[current_tag]` itself when it is a single string, and to the
last element (`[-1]`) when it is a list.  The parser never stores an empty
list and never activates a tag without an entry; in those unreachable states,
where Python would raise `IndexError`/`KeyError`, the value is left
unchanged. -/
def contAppend (cur : RecB) (t s : Str) : RecB :=
  cur.map (fun p =>
    if p.1 = t then
      (p.1, match p.2 with
            | RVal.single u => RVal.single (u ++ ' ' :: s)
            | RVal.multi [] => RVal.multi []
            | RVal.multi vs => RVal.multi (vs.dropLast ++ [vs.getLastD [] ++ ' ' :: s]))
    else p)

/-- One line of `Step3_merge_and_deduplicate.parse_ris_file`: strip the
trailing newline; an `ER  -` line flushes a non-empty current record; a line
whose first six characters contain `"  - "` starts tag `line[:2]` with value
`line[6:].strip()`; otherwise a non-blank line while a tag is active is a
continuation. -/
def step (st : PState) (line : Str) : PState :=
  let l := rstripN line
  if strStartsWith l (str "ER  -") then
    if st.current ≠ [] then ⟨st.records ++ [st.current], [], none⟩
    else ⟨st.records, st.current, none⟩
  else if hasSub (str "  - ") (l.take 6) then
    ⟨st.records, appendTag3 st.current (l.take 2) (trimStr (l.drop 6)), some (l.take 2)⟩
  else
    match st.currentTag with
    | some t => if trimStr l ≠ [] then ⟨st.records, contAppend st.current t (trimStr l), st.currentTag⟩ else st
    | none => st

/-- `parse_ris_file` over the file's lines; a trailing record without an
`ER  -` terminator is discarded. -/
def parse_ris_file (lines : List Str) : List RecB :=
  (lines.foldl step ⟨[], [], none⟩).records

/-- The tag→value-list view of an accumulating record: a single string is a
one-element list. -/
def valuesOf (cur : RecB) (t : Str) : List Str :=
  match alookup cur t with
  | none => []
  | some (RVal.single v) => [v]
  | some (RVal.multi vs) => vs

/-- The continuation contract stated from the spec: the trimmed line text is
space-joined onto the last value of the current tag. -/
def lastValueExtended (vs : List Str) (s : Str) : List Str :=
  match vs with
  | [] => []
  | _ => vs.dropLast ++ [vs.getLastD [] ++ ' ' :: s]

/-- `normalize_doi`: lower-case and strip, remove a leading
`https?://(dx.)?doi.org/` or `doi:`, and strip again; an empty input is
`None`. -/
def normalize_doi (doi : Str) : Option Str :=
  if doi = [] then none
  else
    let d := trimStr (lowerStr doi)
    let d :=
      if strStartsWith d (str "https://dx.doi.org/") then d.drop 19
      else if strStartsWith d (str "http://dx.doi.org/") then d.drop 18
      else if strStartsWith d (str "https://doi.org/") then d.drop 16
      else if strStartsWith d (str "http://doi.org/") then d.drop 15
      else d
    let d := if strStartsWith d (str "doi:") then d.drop 4 else d
    some (trimStr d)

/-- A record as seen by the deduplication pass: the `DO` tag's value as the
Step3 parser stores it — a single string, or a list once the tag repeated
(`record.get('DO', '')` yields the single string `''` when the tag is
absent) — the `_source` label attached while flattening the input folders,
the `_duplicate_sources` bookkeeping list (`[]` models the key being
absent), and an opaque stand-in for the remaining bibliographic fields,
which the pass never reads or writes. -/
structure Rec3 where
  doTag : RVal
  source : Str
  dupSources : List Str
  body : Nat
deriving DecidableEq, Inhabited

/-- `normalize_doi` as called by the dedup loop on `record.get('DO', '')`,
whose value is a string or, when the `DO` tag repeated, a list.  A falsy
value — the empty string or an empty list — returns `None` at the
`if not doi:` guard; on a non-empty list the call `doi.lower()` raises
`AttributeError`, modelled as the outer `none`; otherwise the string is
normalized. -/
def normalize_doi_value : RVal → Option (Option Str)
  | RVal.single s => some (normalize_doi s)
  | RVal.multi [] => some none
  | RVal.multi (_ :: _) => none

/-- The dedup key of a record, after the caller's `if doi:` truthiness
check: the outer `none` models the `AttributeError` raised inside
`normalize_doi`; `some none` a record with no usable DOI; `some (some d)`
the dedup key `d`. -/
def doiKey (r : Rec3) : Option (Option Str) :=
  match normalize_doi_value r.doTag with
  | none => none
  | some none => some none
  | some (some d) => if d = [] then some none else some (some d)

/-- Duplicate bookkeeping on the first-seen record: `_duplicate_sources` is
created as `[existing['_source']]` if absent, then the duplicate's source is
appended. -/
def updateDup (e : Rec3) (src : Str) : Rec3 :=
  { e with dupSources := (if e.dupSources = [] then [e.source] else e.dupSources) ++ [src] }

/-- Update the value stored at key `d` of the `doi_to_record` dict in place
(position unchanged). -/
def assocUpdate (m : List (Str × Rec3)) (d : Str) (f : Rec3 → Rec3) : List (Str × Rec3) :=
  m.map (fun p => if p.1 = d then (p.1, f p.2) else p)

/-- The deduplication loop of `merge_and_deduplicate`: a linear pass keeping
the insertion-ordered `doi_to_record` dict, the `records_without_doi` list and
`duplicate_count`.  The `AttributeError` raised by `normalize_doi` on a
list-valued `DO` tag aborts the whole pass (`none`). -/
def dedupLoop : List Rec3 → List (Str × Rec3) → List Rec3 → Nat →
    Option (List (Str × Rec3) × List Rec3 × Nat)
  | [], m, nd, dc => some (m, nd, dc)
  | r :: rs, m, nd, dc =>
    match doiKey r with
    | none => none
    | some none => dedupLoop rs m (nd ++ [r]) dc
    | some (some d) =>
      if (alookup m d).isSome then
        dedupLoop rs (assocUpdate m d (fun e => updateDup e r.source)) nd (dc + 1)
      else
        dedupLoop rs (m ++ [(d, r)]) nd dc

/-- Result of `merge_and_deduplicate` on the flattened record list: the
`unique_records` output (`list(doi_to_record.values()) + records_without_doi`)
plus the statistics the script derives from the pass. -/
structure MergeResult where
  unique : List Rec3
  duplicatesRemoved : Nat
  totalBefore : Nat
deriving DecidableEq

/-- `merge_and_deduplicate`, starting from the flattened list of all input
records (folder reading and `_source` labelling are the I/O that produced the
list); `none` models the run aborting with an uncaught `AttributeError`. -/
def merge_and_deduplicate (rs : List Rec3) : Option MergeResult :=
  match dedupLoop rs [] [] 0 with
  | none => none
  | some (m, nd, dc) =>
    some { unique := m.map (fun p => p.2) ++ nd
           duplicatesRemoved := dc
           totalBefore := rs.length }

/-- A record with its `_duplicate_sources` bookkeeping removed — the
projection under which the output file is written (`write_ris_file` skips all
`_`-prefixed tags). -/
def stripDup (r : Rec3) : Rec3 := { r with dupSources := [] }

/-- Stated from the spec: the subsequence of DOI-bearing records keeping, per
normalized DOI, only the first occurrence in flattened input order. -/
def keepFirstByDoi : List Rec3 → List Str → List Rec3
  | [], _ => []
  | r :: rs, seen =>
    match doiKey r with
    | some (some d) =>
      if memStr d seen then keepFirstByDoi rs seen
      else r :: keepFirstByDoi rs (seen ++ [d])
    | _ => keepFirstByDoi rs seen

/-- The deduplication rate printed by `print_statistics`:
`duplicates_removed / total_records_before * 100`, with the division-by-zero
error modelled as `none`. -/
def dedup_rate (rs : List Rec3) : Option ℚ :=
  match merge_and_deduplicate rs with
  | none => none
  | some res =>
    (pyDiv (res.duplicatesRemoved : ℚ) (res.totalBefore : ℚ)).map (fun q => q * 100)

end Step3

namespace Filters
/-!
The RIS parser and writer shared, token for token, by
`Step4_filter_by_journal.py`, `Step6_filter_by_content.py` and
`Step7_filter_by_methodology.py` (`parse_ris_file` / `write_ris_file`).
-/

/-- A parsed record: the `defaultdict(list)` snapshot, a tag mapped to its
insertion-ordered list of values, keys in first-insertion order. -/
abbrev RecA := List (Str × List Str)

/-- `current_record[tag].append(value)` on a `defaultdict(list)`: a fresh tag
gains the entry `[value]` at the end, an existing tag has `value` appended in
place. -/
def appendTag (cur : RecA) (t v : Str) : RecA :=
  if (alookup cur t).isSome then
    cur.map (fun p => if p.1 = t then (p.1, p.2 ++ [v]) else p)
  else cur ++ [(t, [v])]

/-- The line loop of `parse_ris_file`: strip trailing `\n`/`\r`; a line
starting `"ER  - "` flushes a non-empty current record; a non-empty line
containing `"  - "` is split at the first separator into a stripped tag and
value; every other line is ignored.  A trailing record without a terminator
is discarded. -/
def parseLoop : List Str → RecA → List RecA
  | [], _ => []
  | l :: ls, cur =>
    let l' := rstripNL l
    if strStartsWith l' (str "ER  - ") then
      if cur ≠ [] then cur :: parseLoop ls [] else parseLoop ls []
    else if l' ≠ [] then
      match splitSep l' with
      | some (a, b) => parseLoop ls (appendTag cur (trimStr a) (trimStr b))
      | none => parseLoop ls cur
    else parseLoop ls cur

/-- `parse_ris_file` over the file's lines. -/
def parse_ris_file (lines : List Str) : List RecA :=
  parseLoop lines []

/-- The fixed preferred tag order of `write_ris_file`. -/
def tag_order : List Str :=
  [str "TY", str "TI", str "AU", str "PY", str "DA", str "JO", str "JF", str "T2",
   str "VL", str "IS", str "SP", str "EP", str "SN", str "AB", str "KW", str "DO",
   str "UR", str "AN", str "N1", str "PB", str "CY", str "BT", str "ED", str "T3"]

/-- The lines `f"{tag}  - {value}"` written for one tag's values. -/
def tagLines (t : Str) (vs : List Str) : List Str :=
  vs.map (fun v => t ++ str "  - " ++ v)

/-- `write_ris_file` for one record: the `tag_order` tags first, then the
remaining tags in dict order, then the terminator `"ER  - "` and a blank
line. -/
def serializeRecord (r : RecA) : List Str :=
  catMap (fun t => match alookup r t with
                   | some vs => tagLines t vs
                   | none => []) tag_order
  ++ catMap (fun p => if memStr p.1 tag_order then [] else tagLines p.1 p.2) r
  ++ [str "ER  - ", []]

/-- `write_ris_file` over a record list, as the written file's lines. -/
def write_ris_file (rs : List RecA) : List Str :=
  catMap serializeRecord rs

/-- The record with its entries in the order `write_ris_file` emits them:
`tag_order` entries first, then the rest. -/
def reorderRecord (r : RecA) : RecA :=
  catMap (fun t => match alookup r t with
                   | some vs => [(t, vs)]
                   | none => []) tag_order
  ++ catMap (fun p => if memStr p.1 tag_order then [] else [p]) r

/-- A serializable tag: a two-character code of non-whitespace characters
other than the terminator code `ER` (the spec's "fixed 2-character tag"). -/
def validTagB (t : Str) : Bool :=
  match t with
  | [c1, c2] => !isWs c1 && !isWs c2 && decide (t ≠ str "ER")
  | _ => false

/-- A serializable value: already stripped — no leading and no trailing
whitespace, stated as the two `dropWhile` fixed points (together equivalent
to `trimStr v = v`) — and free of newline characters so that it occupies one
line of the written file. -/
def validValueB (v : Str) : Bool :=
  decide (v.dropWhile isWs = v) && decide (v.reverse.dropWhile isWs = v.reverse) &&
    !v.contains '\n'

/-- A serializable record: non-empty, distinct tags, valid tags, and a
non-empty list of valid values per tag. -/
def validRecordB (r : RecA) : Bool :=
  decide (r ≠ []) && decide ((r.map Prod.fst).Nodup) &&
    r.all (fun p => validTagB p.1 && decide (p.2 ≠ []) && p.2.all validValueB)

/-- A serializable record list. -/
def validRecsB (rs : List RecA) : Bool :=
  rs.all validRecordB

end Filters

namespace Step4
/-!
`Step4_filter_by_journal.py`: the journal allow-list filter.
-/

open Filters

/-- The `TARGET_JOURNALS` allow-list. -/
def TARGET_JOURNALS : List Str :=
  [str "Journal of Biomedical Informatics",
   str "Journal of the American Medical Informatics Association",
   str "International Journal of Medical Informatics",
   str "BMC Medical Informatics and Decision Making",
   str "Studies in Health Technology and Informatics",
   str "Computers in Biology and Medicine",
   str "IEEE Access",
   str "Expert Systems with Applications",
   str "Biomedical Signal Processing and Control",
   str "Sensors",
   str "Applied Sciences Switzerland"]

/-- `' '.join(s.split())`: collapse whitespace runs and drop the ends. -/
def joinSplit (s : Str) : Str :=
  spaceJoin (((s.splitOnP (fun c => isWs c)).filter (fun w => w ≠ [])))

/-- `normalize_journal_name`: lower-case, strip, remove `:`, `,` and `.`,
normalize spaces; an empty (falsy) name normalizes to the empty string. -/
def normalize_journal_name (j : Str) : Str :=
  if j = [] then []
  else
    joinSplit ((trimStr (lowerStr j)).filter (fun c => !(c = ':' || c = ',' || c = '.')))

/-- `get_journal_from_record`: the first populated tag among `JO`, `JF`, `T2`,
stripped; `none` models Python's `None`. -/
def get_journal_from_record (r : RecA) : Option Str :=
  match alookup r (str "JO") with
  | some (v :: _) => some (trimStr v)
  | _ =>
    match alookup r (str "JF") with
    | some (v :: _) => some (trimStr v)
    | _ =>
      match alookup r (str "T2") with
      | some (v :: _) => some (trimStr v)
      | _ => none

/-- `matches_target_journal`: the first target whose normalized form equals,
or is contained in, the normalized journal name. -/
def matches_target_journal (j : Str) (targets : List Str) : Option Str :=
  if j = [] then none
  else
    targets.find? (fun t =>
      normalize_journal_name t = normalize_journal_name j ||
      hasSub (normalize_journal_name t) (normalize_journal_name j))

/-- The output of `filter_by_journal`: the kept records, and the statistics
dict.  The two `Counter`s are modelled by their streams of increments (one
entry per counted event, so a key's count is its number of occurrences);
no rejected record is part of the output. -/
structure JournalStats where
  matched : List Str
  unmatched : List Str
  noJournal : Nat
deriving DecidableEq

/-- The record loop of `filter_by_journal`: the `if not journal:` check —
which catches both a missing journal (`None`) and one that strips to the
empty string — only bumps `no_journal_count`; a matching record is kept and
its matched target counted; a non-matching record only has its journal name
counted. -/
def journalLoop (targets : List Str) :
    List RecA → List RecA → List Str → List Str → Nat → List RecA × JournalStats
  | [], kept, ms, us, nj => (kept, ⟨ms, us, nj⟩)
  | r :: rs, kept, ms, us, nj =>
    match get_journal_from_record r with
    | none => journalLoop targets rs kept ms us (nj + 1)
    | some j =>
      if j = [] then journalLoop targets rs kept ms us (nj + 1)
      else
        match matches_target_journal j targets with
        | some tgt => journalLoop targets rs (kept ++ [r]) (ms ++ [tgt]) us nj
        | none => journalLoop targets rs kept ms (us ++ [j]) nj

/-- `filter_by_journal(records, target_journals)`. -/
def filter_by_journal (rs : List RecA) (targets : List Str) : List RecA × JournalStats :=
  journalLoop targets rs [] [] [] 0

/-- Whether `filter_by_journal` keeps a record. -/
def journalKeepB (targets : List Str) (r : RecA) : Bool :=
  match get_journal_from_record r with
  | none => false
  | some j => (matches_target_journal j targets).isSome

/-- The journal name counted for a rejected record that has a non-empty
one. -/
def journalRejName (targets : List Str) (r : RecA) : Option Str :=
  match get_journal_from_record r with
  | none => none
  | some j =>
    if j = [] then none
    else if (matches_target_journal j targets).isSome then none else some j

/-- The removal percentage printed by `filter_file` (line 241):
`records_removed / records_before * 100`, unguarded — `none` models the
`ZeroDivisionError` on an empty input file. -/
def filter_file_removed_pct (rs : List RecA) : Option ℚ :=
  let before := rs.length
  let after := (filter_by_journal rs TARGET_JOURNALS).1.length
  (pyDiv ((before - after : Nat) : ℚ) (before : ℚ)).map (fun q => q * 100)

end Step4

namespace Step6
/-!
`Step6_filter_by_content.py`: the scored content/task-relevance filter.
-/

open Filters

/-- The outcomes of the regex searches performed by `check_positive_signals`
and `check_negative_signals` on a record's text: the `findall` results over
the full text for `POS_PHRASES`, the model verbs found near `icd`, the
`findall` results for `ML_SIGNALS`, the number of `POS_PHRASES` matching the
title, the `findall` results for `NEG_PHRASES`, and the number of
`NEG_PHRASES` matching the title.  The searches themselves (Python `re` over
the lower-cased title/abstract/keywords) are the modelled input. -/
structure Signals where
  posMatches : List Str
  verbMatches : List Str
  mlMatches : List Str
  posTitleCount : Nat
  negMatches : List Str
  negTitleCount : Nat
deriving DecidableEq

/-- `check_positive_signals`: `pos_score`, `verb_score`, `ml_score` (capped at
3) and `title_bonus` (2 per matching title phrase). -/
def check_positive_signals (s : Signals) : Nat × Nat × Nat × Nat :=
  (s.posMatches.length, s.verbMatches.length, min s.mlMatches.length 3, 2 * s.posTitleCount)

/-- `check_negative_signals`: `neg_score` = match count plus a title penalty
of 3 per matching title phrase. -/
def check_negative_signals (s : Signals) : Nat :=
  s.negMatches.length + 3 * s.negTitleCount

/-- The `positive_score` summed in `should_keep_record`. -/
def positive_score (s : Signals) : Nat :=
  (check_positive_signals s).1 + (check_positive_signals s).2.1 +
    (check_positive_signals s).2.2.1 + (check_positive_signals s).2.2.2

/-- The `negative_score` of `should_keep_record`. -/
def negative_score (s : Signals) : Nat :=
  check_negative_signals s

/-- The decision cascade of `should_keep_record`, returning the keep flag and
the reason string. -/
def should_keep_record (s : Signals) : Bool × Str :=
  let pos := positive_score s
  let neg := negative_score s
  if pos ≥ 3 then (true, str "Strong positive signals")
  else if pos ≥ 2 && neg ≤ 2 then (true, str "Moderate positive signals")
  else if neg ≥ 3 && pos < 2 then (false, str "Strong negative signals (cohort/metadata use)")
  else if pos > 0 then (true, str "Weak positive signals")
  else (false, str "No clear ICD coding task signals")

/-- Stated from the spec: the ordered decision table — score≥3 keep,
score≥2 and negative≤2 keep, negative≥3 and positive<2 reject, positive>0
keep, else reject; first matching rule decides. -/
def contentDecisionSpec (pos neg : Nat) : Bool :=
  if pos ≥ 3 then true
  else if pos ≥ 2 ∧ neg ≤ 2 then true
  else if neg ≥ 3 ∧ pos < 2 then false
  else if pos > 0 then true
  else false

/-- `get_title_from_record`: the first `TI` value, truncated to 100
characters plus `'...'`; `'Unknown'` otherwise. -/
def get_title_from_record (r : RecA) : Str :=
  match alookup r (str "TI") with
  | some (v :: _) => if 100 < v.length then v.take 100 ++ str "..." else v
  | _ => str "Unknown"

/-- What `filter_by_content` retains about its input: the kept records, the
two reason `Counter`s (modelled by their increment streams), and the at most
three kept/removed examples, each a title/reason pair.  The rejected records
themselves are not part of the output. -/
structure ContentStats where
  keptReasons : List Str
  removedReasons : List Str
  keptExamples : List (Str × Str)
  removedExamples : List (Str × Str)
deriving DecidableEq

/-- The record loop of `filter_by_content`, with `extract` modelling the
regex signal extraction (`get_text_content` plus the pattern searches) on one
record. -/
def contentLoop (extract : RecA → Signals) :
    List RecA → List RecA → ContentStats → List RecA × ContentStats
  | [], kept, st => (kept, st)
  | r :: rs, kept, st =>
    let (keep, reason) := should_keep_record (extract r)
    if keep then
      contentLoop extract rs (kept ++ [r])
        { st with
          keptReasons := st.keptReasons ++ [reason]
          keptExamples :=
            if st.keptExamples.length < 3 then
              st.keptExamples ++ [(get_title_from_record r, reason)]
            else st.keptExamples }
    else
      contentLoop extract rs kept
        { st with
          removedReasons := st.removedReasons ++ [reason]
          removedExamples :=
            if st.removedExamples.length < 3 then
              st.removedExamples ++ [(get_title_from_record r, reason)]
            else st.removedExamples }

/-- `filter_by_content(records)`. -/
def filter_by_content (extract : RecA → Signals) (rs : List RecA) :
    List RecA × ContentStats :=
  contentLoop extract rs [] ⟨[], [], [], []⟩

/-- The removal percentage printed by Step6's `filter_file` (line 347):
guarded by `if records_before > 0 else 0`, so it is always defined. -/
def filter_file_removed_pct (extract : RecA → Signals) (rs : List RecA) : Option ℚ :=
  let before := rs.length
  let after := (filter_by_content extract rs).1.length
  if 0 < before then (pyDiv ((before - after : Nat) : ℚ) (before : ℚ)).map (fun q => q * 100)
  else some 0

end Step6

namespace Step7
/-!
`Step7_filter_by_methodology.py`: the methodology filter.
-/

open Filters

/-- A pattern of a rule table: the pattern text paired with its search
function (Python `re.search` with `re.IGNORECASE`, modelled as the matching
predicate). -/
abbrev Pattern := Str × (Str → Bool)

/-- `record.get(tag, [])`. -/
def rget (r : RecA) (t : Str) : List Str :=
  (alookup r t).getD []

/-- `get_text_content`'s combined field `'all'`:
`f"{title} {abstract} {keywords}"` over the lower-cased space-joined `TI`,
`AB` and `KW` values. -/
def all_text (r : RecA) : Str :=
  lowerStr (spaceJoin (rget r (str "TI"))) ++ ' ' ::
    lowerStr (spaceJoin (rget r (str "AB"))) ++ ' ' ::
    lowerStr (spaceJoin (rget r (str "KW")))

/-- `check_patterns(text, patterns)`: the patterns that match the text. -/
def check_patterns (text : Str) (patterns : List Pattern) : List Str :=
  patterns.foldr (fun p acc => if p.2 text then p.1 :: acc else acc) []

/-- `should_keep_record` of the methodology filter, over the three rule
tables (`METHOD_PATTERNS`, `EVAL_PATTERNS`, `NEG_PATTERNS`): any negative
match rejects; otherwise any method or evaluation match keeps, with a reason
naming which kinds matched; otherwise reject. -/
def should_keep_record (methodPats evalPats negPats : List Pattern) (r : RecA) :
    Bool × Str :=
  let t := all_text r
  let methodMatches := check_patterns t methodPats
  let evalMatches := check_patterns t evalPats
  let negMatches := check_patterns t negPats
  if negMatches.length > 0 then
    (false, str "Non-methodological focus (audit/billing/qualitative/guideline)")
  else if methodMatches.length > 0 || evalMatches.length > 0 then
    if methodMatches.length > 0 && evalMatches.length > 0 then
      (true, str "Strong methodology signals (method + evaluation)")
    else if methodMatches.length > 0 then
      (true, str "Method signals present")
    else
      (true, str "Evaluation signals present")
  else
    (false, str "No methodology or evaluation signals")

/-- Stated from the spec: some pattern of the table matches the text. -/
def anyPatternMatches (pats : List Pattern) (t : Str) : Bool :=
  pats.any (fun p => p.2 t)

end Step7

namespace Step9
/-!
`Step9_select_representatives.py`: tagging, bucketing and representative
selection.  The phase/challenge/dataset rule tables and the metric, novelty
and coding-task patterns are rule data (label, search function); the sanity
check `ICD_PAT` (`\bicd\b`, case-insensitive), which the skip logic depends
on, is implemented concretely.
-/

open Filters

/-- A record as loaded by Step9's `parse_ris_file`: the tag dict plus the
`_raw` block text and `_source` path the parser attaches. -/
structure Rec9 where
  tags : RecA
  raw : Str
  source : Str
deriving DecidableEq

/-- A rule of a rule table: its label and its search function. -/
abbrev Rule := Str × (Str → Bool)

/-- The rule tables and single patterns of the script, as data. -/
structure Rules9 where
  phaseRules : List Rule
  challengeRules : List Rule
  datasetRules : List Rule
  metricSearch : Str → Bool
  noveltySearch : Str → Bool
  codingSearch : Str → Bool

/-- `TOP_N_PER_BUCKET`. -/
def TOP_N_PER_BUCKET : Nat := 3

/-- `TOTAL_CAP` (`None`: no cap). -/
def TOTAL_CAP : Option Nat := none

/-- `BUCKET_MODE`. -/
def BUCKET_MODE : Str := str "phase_x_challenge"

/-- A word character of the regex `\b` boundary (ASCII `\w`). -/
def isWordChar (c : Char) : Bool :=
  c.isAlpha || ('0' ≤ c && c ≤ '9') || c = '_'

/-- Does `icd` (any case) start here, ending at a word boundary? -/
def icdHere : Str → Bool
  | c1 :: c2 :: c3 :: rest =>
    (c1.toLower = 'i' && c2.toLower = 'c' && c3.toLower = 'd') &&
      (match rest with
       | [] => true
       | c4 :: _ => !isWordChar c4)
  | _ => false

/-- Scan for `\bicd\b`, tracking whether the previous character was a word
character. -/
def hasIcdAux (prevIsWord : Bool) : Str → Bool
  | [] => false
  | c :: cs => (!prevIsWord && icdHere (c :: cs)) || hasIcdAux (isWordChar c) cs

/-- `ICD_PAT.search`: the text contains the word `icd`, case-insensitively. -/
def hasIcdWord (s : Str) : Bool := hasIcdAux false s

/-- `get_text_content`: `f"{title} {abstract} {keywords}"` over space-joined
`TI`, `AB`, `KW` values (not lower-cased here). -/
def get_text_content (r : Rec9) : Str :=
  spaceJoin ((alookup r.tags (str "TI")).getD []) ++ ' ' ::
    spaceJoin ((alookup r.tags (str "AB")).getD []) ++ ' ' ::
    spaceJoin ((alookup r.tags (str "KW")).getD [])

/-- `re.sub(r"\s+", " ", text)`: collapse every whitespace run to one
space. -/
def collapseWs (prevWs : Bool) : Str → Str
  | [] => []
  | c :: cs =>
    if isWs c then
      (if prevWs then collapseWs true cs else ' ' :: collapseWs true cs)
    else c :: collapseWs false cs

/-- The normalized text `text_norm` of the tagging loop. -/
def textNorm (t : Str) : Str := trimStr (collapseWs false t)

/-- Is this character an ASCII digit (regex `\d`)? -/
def isDig (c : Char) : Bool := '0' ≤ c && c ≤ '9'

/-- `re.search(r'\d{4}', s)`: the first run of four digits. -/
def findDigits4 : Str → Option Str
  | [] => none
  | c :: cs =>
    if ((c :: cs).take 4).length = 4 && ((c :: cs).take 4).all isDig then
      some ((c :: cs).take 4)
    else findDigits4 cs

/-- `get_year`: a four-digit match in the first `PY` value, else in the first
`DA` value, else the empty string. -/
def get_year (r : Rec9) : Str :=
  match alookup r.tags (str "PY") with
  | some (v :: _) =>
    match findDigits4 v with
    | some y => y
    | none => getYearDA r
  | _ => getYearDA r
where
  getYearDA (r : Rec9) : Str :=
    match alookup r.tags (str "DA") with
    | some (v :: _) =>
      match findDigits4 v with
      | some y => y
      | none => []
    | _ => []

/-- Decimal value of a digit string. -/
def digitsToNat (s : Str) : Nat :=
  s.foldl (fun n c => 10 * n + (c.toNat - '0'.toNat)) 0

/-- `year_bucket`: era label from the year string (`int(y)` failure, modelled
as a non-digit or empty string, gives `UNKNOWN`). -/
def year_bucket (y : Str) : Str :=
  if y = [] then str "UNKNOWN"
  else if y.all isDig then
    let yi := digitsToNat y
    if yi ≤ 2011 then str "pre2012"
    else if yi ≤ 2016 then str "2012_2016"
    else if yi ≤ 2019 then str "2017_2019"
    else if yi ≤ 2022 then str "2020_2022"
    else str "2023_plus"
  else str "UNKNOWN"

/-- `tag_phase`: the first matching phase rule's label, in priority order,
else `UNSPECIFIED`. -/
def tag_phase (R : Rules9) (t : Str) : Str :=
  ((R.phaseRules.find? (fun p => p.2 t)).map Prod.fst).getD (str "UNSPECIFIED")

/-- `tag_challenges`: all matching challenge labels, or `["GENERAL"]`. -/
def tag_challenges (R : Rules9) (t : Str) : List Str :=
  let tags := (R.challengeRules.filter (fun p => p.2 t)).map Prod.fst
  if tags = [] then [str "GENERAL"] else tags

/-- `tag_dataset`: the first matching dataset label, else `UNKNOWN`. -/
def tag_dataset (R : Rules9) (t : Str) : Str :=
  ((R.datasetRules.find? (fun p => p.2 t)).map Prod.fst).getD (str "UNKNOWN")

/-- `score_record`: 3 for metrics, 2 for novelty language, 2 for coding-task
language, 1 for text longer than 600 characters. -/
def score_record (R : Rules9) (t : Str) : Nat :=
  (if R.metricSearch t then 3 else 0) + (if R.noveltySearch t then 2 else 0) +
    (if R.codingSearch t then 2 else 0) + (if 600 < t.length then 1 else 0)

/-- `get_title_from_record`. -/
def get_title_from_record (r : Rec9) : Str :=
  match alookup r.tags (str "TI") with
  | some (v :: _) => v
  | _ => str "Unknown"

/-- `get_doi_from_record`. -/
def get_doi_from_record (r : Rec9) : Str :=
  match alookup r.tags (str "DO") with
  | some (v :: _) => v
  | _ => []

/-- `get_journal_from_record`. -/
def get_journal_from_record (r : Rec9) : Str :=
  match alookup r.tags (str "JO") with
  | some (v :: _) => v
  | _ =>
    match alookup r.tags (str "JF") with
    | some (v :: _) => v
    | _ =>
      match alookup r.tags (str "T2") with
      | some (v :: _) => v
      | _ => []

/-- The per-paper `row` dict written to `tagged_papers.csv` (the `score`
field is kept numeric; its CSV stringification is presentation). -/
structure Row where
  id : Nat
  sourceFile : Str
  year : Str
  yearBucket : Str
  journal : Str
  doi : Str
  title : Str
  phase : Str
  primaryChallenge : Str
  allChallenges : List Str
  datasetTag : Str
  hasMetrics : Bool
  hasNovelty : Bool
  hasCodingTask : Bool
  score : Nat
deriving DecidableEq

/-- A bucket item `(score, year_int, record, row)`. -/
structure Entry where
  score : Nat
  yearInt : Nat
  record : Rec9
  row : Row
deriving DecidableEq

/-- A bucket key. -/
abbrev Key := Str × Str

/-- The body of the tagging loop for one record: `none` when the sanity
check `ICD_PAT.search(text_norm)` fails and the record is skipped; otherwise
the row, bucket key and bucket item. -/
def processRecord (R : Rules9) (i : Nat) (r : Rec9) : Option (Row × Key × Entry) :=
  let tn := textNorm (get_text_content r)
  if !hasIcdWord tn then none
  else
    let phase := tag_phase R tn
    let challenges := tag_challenges R tn
    let ds := tag_dataset R tn
    let year := get_year r
    let primary := (challenges.find? (fun c => c ≠ str "GENERAL")).getD (str "GENERAL")
    let key : Key :=
      if BUCKET_MODE = str "phase_only" then (phase, str "ALL")
      else if BUCKET_MODE = str "phase_x_dataset" then (phase, ds)
      else (phase, primary)
    let row : Row :=
      { id := i
        sourceFile := r.source
        year := year
        yearBucket := year_bucket year
        journal := get_journal_from_record r
        doi := get_doi_from_record r
        title := get_title_from_record r
        phase := phase
        primaryChallenge := primary
        allChallenges := challenges
        datasetTag := ds
        hasMetrics := R.metricSearch tn
        hasNovelty := R.noveltySearch tn
        hasCodingTask := R.codingSearch tn
        score := score_record R tn }
    let yearInt := if year ≠ [] && year.all isDig then digitsToNat year else 0
    some (row, key, ⟨score_record R tn, yearInt, r, row⟩)

/-- The tagging loop: `tagged_rows`, the `bucketed` defaultdict modelled as
its append stream of `(key, item)` events, and the `skipped` count. -/
def tagLoop (R : Rules9) :
    List Rec9 → Nat → List Row → List (Key × Entry) → Nat →
      List Row × List (Key × Entry) × Nat
  | [], _, tr, bk, sk => (tr, bk, sk)
  | r :: rs, i, tr, bk, sk =>
    match processRecord R i r with
    | none => tagLoop R rs (i + 1) tr bk (sk + 1)
    | some (row, k, e) => tagLoop R rs (i + 1) (tr ++ [row]) (bk ++ [(k, e)]) sk

/-- The keys of the `bucketed` dict in first-insertion order. -/
def keysInOrder (seen : List Key) : List (Key × Entry) → List Key
  | [] => []
  | p :: ps =>
    if p.1 ∈ seen then keysInOrder seen ps
    else p.1 :: keysInOrder (p.1 :: seen) ps

/-- The items of one bucket, in insertion order. -/
def itemsFor (bk : List (Key × Entry)) (k : Key) : List Entry :=
  (bk.filter (fun p => p.1 = k)).map (fun p => p.2)

/-- The sort key `(score, year_int, len(title))`. -/
def entryKey (e : Entry) : Nat × Nat × Nat :=
  (e.score, e.yearInt, e.row.title.length)

/-- Lexicographic strict order on sort keys. -/
def keyLt (a b : Nat × Nat × Nat) : Bool :=
  a.1 < b.1 || (a.1 = b.1 && (a.2.1 < b.2.1 || (a.2.1 = b.2.1 && a.2.2 < b.2.2)))

/-- Insert into a descending-sorted list, after every larger key and before
equal ones — Python's stable `sorted(..., reverse=True)`. -/
def sortDescInsert (e : Entry) : List Entry → List Entry
  | [] => [e]
  | x :: xs =>
    if keyLt (entryKey e) (entryKey x) then x :: sortDescInsert e xs
    else e :: x :: xs

/-- Stable descending sort by `entryKey`. -/
def sortDesc : List Entry → List Entry
  | [] => []
  | e :: es => sortDescInsert e (sortDesc es)

/-- Per-bucket selection: sort descending, take `TOP_N_PER_BUCKET`, and tag
each pick with its bucket key; buckets are visited in dict order. -/
def selectFromBuckets (bk : List (Key × Entry)) : List (Key × Entry) :=
  catMap (fun k => ((sortDesc (itemsFor bk k)).take TOP_N_PER_BUCKET).map (fun e => (k, e)))
    (keysInOrder [] bk)

/-- The outputs of `select_representatives` that survive the run: everything
else the script writes (CSV files, the RIS of `_raw` blocks, the console
report) is rendered from these. -/
structure SelectResult where
  taggedRows : List Row
  bucketed : List (Key × Entry)
  selected : List (Key × Entry)
  skipped : Nat

/-- `select_representatives` on the already-parsed record list: tag and
bucket every record that mentions ICD, then pick the top
`TOP_N_PER_BUCKET` of each bucket, with the optional total cap (`None`
here, so no recut). -/
def select_representatives (R : Rules9) (records : List Rec9) : SelectResult :=
  let (tr, bk, sk) := tagLoop R records 1 [] [] 0
  let sel := selectFromBuckets bk
  let sel :=
    match TOTAL_CAP with
    | some cap => if cap < sel.length then sel.take cap else sel
    | none => sel
  ⟨tr, bk, sel, sk⟩

end Step9

namespace Step4

/-- The target counted for a kept record (spec-side view of the `matched`
counter stream). -/
def journalMatchedName (targets : List Str) (r : Filters.RecA) : Option Str :=
  (get_journal_from_record r).bind (fun j => matches_target_journal j targets)

/-- Whether the record falls under the `if not journal:` check: its journal
is missing, or strips to the empty string. -/
def journalMissingB (r : Filters.RecA) : Bool :=
  match get_journal_from_record r with
  | none => true
  | some j => decide (j = [])

end Step4

/-! ## Helper lemmas -/

theorem check_patterns_length_pos (t : Str) (ps : List Step7.Pattern) :
    0 < (Step7.check_patterns t ps).length ↔ Step7.anyPatternMatches ps t = true := by
  induction ps with
  | nil => simp [Step7.check_patterns, Step7.anyPatternMatches]
  | cons p ps ih =>
    have hcp : Step7.check_patterns t (p :: ps) =
        (if p.2 t then p.1 :: Step7.check_patterns t ps else Step7.check_patterns t ps) := by
      simp [Step7.check_patterns]
    by_cases h : p.2 t <;> simp [hcp, Step7.anyPatternMatches, h, ih]

/-- C2: the content filter's decision is the spec's ordered decision table
over the composed positive and negative scores, the first matching rule
deciding; in particular a positive score of at least 3 keeps the record
whatever the negative score is. -/
theorem content_filter_decision_table (s : Step6.Signals) :
    (Step6.should_keep_record s).1 =
      Step6.contentDecisionSpec (Step6.positive_score s) (Step6.negative_score s) ∧
    (3 ≤ Step6.positive_score s → (Step6.should_keep_record s).1 = true) := by
  constructor
  · unfold Step6.should_keep_record Step6.contentDecisionSpec
    by_cases h1 : 3 ≤ Step6.positive_score s
    · simp [h1]
    · by_cases h2 : 2 ≤ Step6.positive_score s
      · by_cases h3 : Step6.negative_score s ≤ 2
        · simp [h1, h2, h3]
        · have hp2 : ¬ Step6.positive_score s < 2 := by omega
          have hp0 : 0 < Step6.positive_score s := by omega
          simp [h1, h2, h3, hp2, hp0]
      · by_cases h3 : 3 ≤ Step6.negative_score s
        · have hp2 : Step6.positive_score s < 2 := by omega
          simp [h1, h2, h3, hp2]
        · have hn2 : Step6.negative_score s ≤ 2 := by omega
          by_cases h4 : 0 < Step6.positive_score s <;> simp [h1, h2, h3, h4, hn2]
  · intro h
    unfold Step6.should_keep_record
    simp [h]

/-- Witness for `content_filter_decision_table`: a record scoring 4 positive
and 59 negative is kept. -/
theorem content_filter_decision_table_witness :
    3 ≤ Step6.positive_score ⟨[], [], [], 2, List.replicate 50 [], 3⟩ ∧
    (Step6.should_keep_record ⟨[], [], [], 2, List.replicate 50 [], 3⟩).1 = true :=
  ⟨by decide,
   (content_filter_decision_table ⟨[], [], [], 2, List.replicate 50 [], 3⟩).2 (by decide)⟩

/-- C7: the methodology filter rejects whenever any deny pattern matches the
combined text, even when method or evaluation patterns match too; otherwise
it keeps exactly when a method or evaluation pattern matches. -/
theorem methodology_filter_deny_overrides (mp ep np : List Step7.Pattern)
    (r : Filters.RecA) :
    (Step7.should_keep_record mp ep np r).1 =
      (!Step7.anyPatternMatches np (Step7.all_text r) &&
        (Step7.anyPatternMatches mp (Step7.all_text r) ||
          Step7.anyPatternMatches ep (Step7.all_text r))) := by
  unfold Step7.should_keep_record
  by_cases hn : Step7.anyPatternMatches np (Step7.all_text r) = true <;>
    by_cases hm : Step7.anyPatternMatches mp (Step7.all_text r) = true <;>
      by_cases he : Step7.anyPatternMatches ep (Step7.all_text r) = true <;>
        simp [check_patterns_length_pos, hn, hm, he]

/-- C8: the percentage computations of Step4's `filter_file` and Step3's
`print_statistics` are unguarded and divide by zero on an empty input
(modelled as `none`), while Step6's is guarded and yields `0`. -/
theorem empty_input_rate_divides_by_zero :
    Step4.filter_file_removed_pct [] = none ∧
    Step3.dedup_rate [] = none ∧
    Step6.filter_file_removed_pct (fun _ => ⟨[], [], [], 0, [], 0⟩) [] = some 0 := by
  refine ⟨?_, ?_, ?_⟩ <;>
    simp [Step4.filter_file_removed_pct, Step3.dedup_rate, Step6.filter_file_removed_pct,
      Step3.merge_and_deduplicate, Step3.dedupLoop, Step4.filter_by_journal,
      Step4.journalLoop, Step6.filter_by_content, Step6.contentLoop, pyDiv]

theorem appendTag_values_nonempty (cur : Filters.RecA) (t v : Str)
    (h : cur.all (fun p => !p.2.isEmpty) = true) :
    (Filters.appendTag cur t v).all (fun p => !p.2.isEmpty) = true := by
  unfold Filters.appendTag
  by_cases hs : (alookup cur t).isSome
  · rw [if_pos hs, List.all_eq_true] at *
    intro p hp
    rcases List.mem_map.mp hp with ⟨q, hq, rfl⟩
    by_cases hqt : q.1 = t
    · simp [hqt]
    · simpa [hqt] using h q hq
  · rw [if_neg hs, List.all_append, h]
    simp

theorem parseLoop_values_nonempty : ∀ (lines : List Str) (cur : Filters.RecA),
    cur.all (fun p => !p.2.isEmpty) = true →
    (Filters.parseLoop lines cur).all (fun r => r.all (fun p => !p.2.isEmpty)) = true := by
  intro lines
  induction lines with
  | nil => intro cur h; simp [Filters.parseLoop]
  | cons l ls ih =>
    intro cur h
    simp only [Filters.parseLoop]
    by_cases h1 : strStartsWith (rstripNL l) (str "ER  - ") = true
    · rw [if_pos h1]
      by_cases h2 : cur = []
      · subst h2
        rw [if_neg (by simp)]
        exact ih [] (by simp)
      · rw [if_pos h2, List.all_cons]
        have := ih [] (by simp)
        simp only [h, this, Bool.and_self]
    · rw [if_neg h1]
      by_cases h2 : rstripNL l = []
      · rw [if_neg (by simp [h2])]
        exact ih cur h
      · rw [if_pos h2]
        cases hsp : splitSep (rstripNL l) with
        | none => exact ih cur h
        | some ab =>
          obtain ⟨a, b⟩ := ab
          exact ih _ (appendTag_values_nonempty cur _ _ h)

/-- C9 counterexample: parsing a tag line with an empty value stores the
empty string as a value instead of dropping it. -/
theorem parser_keeps_empty_value :
    Filters.parse_ris_file [str "AB  - ", str "ER  - "] = [[(str "AB", [str ""])]] ∧
    ¬ (Filters.parse_ris_file [str "AB  - ", str "ER  - "]).all
        (fun r => r.all (fun p => p.2.all (fun v => !v.isEmpty))) = true := by
  refine ⟨by decide, by decide⟩

/-- C9 amended: every tag of every record produced by the filter-stage parser
has a non-empty value list; however values that are empty after trimming are
stored, not dropped. -/
theorem parser_value_lists_nonempty (lines : List Str) :
    (Filters.parse_ris_file lines).all (fun r => r.all (fun p => !p.2.isEmpty)) = true :=
  parseLoop_values_nonempty lines [] (by simp)

theorem valuesOf_contAppend_self : ∀ (cur : Step3.RecB) (t s : Str),
    Step3.valuesOf (Step3.contAppend cur t s) t =
      Step3.lastValueExtended (Step3.valuesOf cur t) s := by
  intro cur t s
  induction cur with
  | nil => rfl
  | cons p ps ih =>
    by_cases hp : p.1 = t
    · cases hv : p.2 with
      | single u =>
        simp [Step3.contAppend, Step3.valuesOf, Step3.lastValueExtended, alookup, hp, hv]
      | multi vs =>
        cases vs with
        | nil => simp [Step3.contAppend, Step3.valuesOf, Step3.lastValueExtended, alookup, hp, hv]
        | cons v vs' =>
          simp [Step3.contAppend, Step3.valuesOf, Step3.lastValueExtended, alookup, hp, hv]
    · simpa [Step3.contAppend, Step3.valuesOf, alookup, hp] using ih

theorem valuesOf_contAppend_other : ∀ (cur : Step3.RecB) (t s t' : Str), t' ≠ t →
    Step3.valuesOf (Step3.contAppend cur t s) t' = Step3.valuesOf cur t' := by
  intro cur t s t' hne
  induction cur with
  | nil => rfl
  | cons p ps ih =>
    have hne2 : ¬ t = t' := fun h => hne h.symm
    by_cases hp : p.1 = t'
    · have hpt : ¬ p.1 = t := by rw [hp]; exact hne
      simp [Step3.contAppend, Step3.valuesOf, alookup, hp, hpt, hne]
    · by_cases hpt : p.1 = t <;>
        simpa [Step3.contAppend, Step3.valuesOf, alookup, hp, hpt, hne2] using ih

/-- C5 counterexample: the filter-stage parser
(`Step4_filter_by_journal.parse_ris_file`, duplicated in Step6/Step7) drops a
continuation line instead of appending it to the last value of the current
tag. -/
theorem filter_parser_drops_continuation_line :
    Filters.parse_ris_file [str "AB  - first", str "second part", str "ER  - "] =
      [[(str "AB", [str "first"])]] ∧
    Filters.parse_ris_file [str "AB  - first", str "second part", str "ER  - "] ≠
      [[(str "AB", [str "first second part"])]] := by
  refine ⟨by decide, by decide⟩

/-- C5 amended: in the merge-stage parser (Step3), a non-blank line that is
neither a terminator nor a tag line, while a tag is active, has its stripped
text space-appended to the last value of the current tag, everything else
unchanged; the filter-stage parsers (Step4/Step6/Step7) instead ignore any
non-terminator line without the separator. -/
theorem continuation_line_extends_last_value :
    (∀ (st : Step3.PState) (line t : Str),
      st.currentTag = some t →
      strStartsWith (rstripN line) (str "ER  -") = false →
      hasSub (str "  - ") ((rstripN line).take 6) = false →
      trimStr (rstripN line) ≠ [] →
      (Step3.step st line).records = st.records ∧
      (Step3.step st line).currentTag = some t ∧
      Step3.valuesOf (Step3.step st line).current t =
        Step3.lastValueExtended (Step3.valuesOf st.current t) (trimStr (rstripN line)) ∧
      (∀ t', t' ≠ t →
        Step3.valuesOf (Step3.step st line).current t' = Step3.valuesOf st.current t')) ∧
    (∀ (l : Str) (ls : List Str) (cur : Filters.RecA),
      strStartsWith (rstripNL l) (str "ER  - ") = false →
      splitSep (rstripNL l) = none →
      Filters.parseLoop (l :: ls) cur = Filters.parseLoop ls cur) := by
  constructor
  · intro st line t ht h1 h2 h3
    have hstep : Step3.step st line =
        ⟨st.records, Step3.contAppend st.current t (trimStr (rstripN line)), st.currentTag⟩ := by
      unfold Step3.step
      rw [if_neg (by simp [h1]), if_neg (by simp [h2]), ht]
      simp [h3]
    refine ⟨by rw [hstep], by rw [hstep]; exact ht, ?_, ?_⟩
    · rw [hstep]
      exact valuesOf_contAppend_self st.current t (trimStr (rstripN line))
    · intro t' hne
      rw [hstep]
      exact valuesOf_contAppend_other st.current t (trimStr (rstripN line)) t' hne
  · intro l ls cur h1 h2
    simp only [Filters.parseLoop]
    rw [if_neg (by simp [h1])]
    by_cases hl : rstripNL l = []
    · rw [if_neg (by simp [hl])]
    · rw [if_pos hl, h2]

/-- Witness for `continuation_line_extends_last_value` at a concrete state
and line. -/
theorem continuation_line_extends_last_value_witness :
    Step3.valuesOf
        (Step3.step ⟨[], [(str "AB", Step3.RVal.single (str "first"))], some (str "AB")⟩
          (str "second part")).current (str "AB") =
      Step3.lastValueExtended
        (Step3.valuesOf [(str "AB", Step3.RVal.single (str "first"))] (str "AB"))
        (trimStr (rstripN (str "second part"))) ∧
    Filters.parseLoop [str "second part"] [(str "AB", [str "first"])] =
      Filters.parseLoop [] [(str "AB", [str "first"])] :=
  ⟨(continuation_line_extends_last_value.1
      ⟨[], [(str "AB", Step3.RVal.single (str "first"))], some (str "AB")⟩
      (str "second part") (str "AB") rfl (by decide) (by decide) (by decide)).2.2.1,
   continuation_line_extends_last_value.2 (str "second part") []
      [(str "AB", [str "first"])] (by decide) (by decide)⟩

theorem alookup_isSome_memStr : ∀ (m : List (Str × Step3.Rec3)) (d : Str),
    (alookup m d).isSome = memStr d (m.map Prod.fst) := by
  intro m d
  induction m with
  | nil => rfl
  | cons p ps ih =>
    by_cases hp : p.1 = d <;> simp [alookup, memStr, hp, ih]

theorem stripDup_updateDup (e : Step3.Rec3) (s : Str) :
    Step3.stripDup (Step3.updateDup e s) = Step3.stripDup e := rfl

theorem assocUpdate_strip : ∀ (m : List (Str × Step3.Rec3)) (d s : Str),
    (Step3.assocUpdate m d (fun e => Step3.updateDup e s)).map
        (fun p => Step3.stripDup p.2) =
      m.map (fun p => Step3.stripDup p.2) := by
  intro m d s
  induction m with
  | nil => rfl
  | cons p ps ih =>
    by_cases hp : p.1 = d
    · simp only [Step3.assocUpdate, List.map_cons, if_pos hp] at ih ⊢
      rw [ih, stripDup_updateDup]
    · simp only [Step3.assocUpdate, List.map_cons, if_neg hp] at ih ⊢
      rw [ih]

theorem assocUpdate_keys : ∀ (m : List (Str × Step3.Rec3)) (d : Str)
    (f : Step3.Rec3 → Step3.Rec3),
    (Step3.assocUpdate m d f).map Prod.fst = m.map Prod.fst := by
  intro m d f
  induction m with
  | nil => rfl
  | cons p ps ih =>
    by_cases hp : p.1 = d
    · simp only [Step3.assocUpdate, List.map_cons, if_pos hp] at ih ⊢
      rw [ih]
    · simp only [Step3.assocUpdate, List.map_cons, if_neg hp] at ih ⊢
      rw [ih]

theorem dedupLoop_fst : ∀ (rs : List Step3.Rec3) (m : List (Str × Step3.Rec3))
    (nd : List Step3.Rec3) (dc : Nat)
    (out : List (Str × Step3.Rec3) × List Step3.Rec3 × Nat),
    Step3.dedupLoop rs m nd dc = some out →
    out.1.map (fun p => Step3.stripDup p.2) =
      m.map (fun p => Step3.stripDup p.2) ++
        (Step3.keepFirstByDoi rs (m.map Prod.fst)).map Step3.stripDup := by
  intro rs
  induction rs with
  | nil =>
    intro m nd dc out h
    have hout : out = (m, nd, dc) := by simpa [Step3.dedupLoop] using h.symm
    subst hout
    simp [Step3.keepFirstByDoi]
  | cons r rs ih =>
    intro m nd dc out h
    cases hk : Step3.doiKey r with
    | none =>
      rw [show Step3.dedupLoop (r :: rs) m nd dc = none from by
        simp [Step3.dedupLoop, hk]] at h
      simp at h
    | some o =>
      cases o with
      | none =>
        have h' : Step3.dedupLoop rs m (nd ++ [r]) dc = some out := by
          rw [show Step3.dedupLoop (r :: rs) m nd dc =
              Step3.dedupLoop rs m (nd ++ [r]) dc from by
            simp [Step3.dedupLoop, hk]] at h
          exact h
        rw [ih m (nd ++ [r]) dc out h']
        simp [Step3.keepFirstByDoi, hk]
      | some d =>
        by_cases hm : (alookup m d).isSome
        · have h' : Step3.dedupLoop rs
              (Step3.assocUpdate m d (fun e => Step3.updateDup e r.source)) nd (dc + 1) =
              some out := by
            rw [show Step3.dedupLoop (r :: rs) m nd dc =
                Step3.dedupLoop rs
                  (Step3.assocUpdate m d (fun e => Step3.updateDup e r.source)) nd
                  (dc + 1) from by
              simp [Step3.dedupLoop, hk, hm]] at h
            exact h
          have hmem : memStr d (m.map Prod.fst) = true := by
            rw [← alookup_isSome_memStr]; exact hm
          rw [ih _ nd (dc + 1) out h', assocUpdate_strip, assocUpdate_keys]
          simp [Step3.keepFirstByDoi, hk, hmem]
        · have h' : Step3.dedupLoop rs (m ++ [(d, r)]) nd dc = some out := by
            rw [show Step3.dedupLoop (r :: rs) m nd dc =
                Step3.dedupLoop rs (m ++ [(d, r)]) nd dc from by
              simp [Step3.dedupLoop, hk, hm]] at h
            exact h
          have hmem : memStr d (m.map Prod.fst) = false := by
            rw [← alookup_isSome_memStr]
            simpa using hm
          rw [ih _ nd dc out h']
          simp [Step3.keepFirstByDoi, hk, hmem]

theorem dedupLoop_snd : ∀ (rs : List Step3.Rec3) (m : List (Str × Step3.Rec3))
    (nd : List Step3.Rec3) (dc : Nat)
    (out : List (Str × Step3.Rec3) × List Step3.Rec3 × Nat),
    Step3.dedupLoop rs m nd dc = some out →
    out.2.1 = nd ++ rs.filter (fun r => Step3.doiKey r = some none) := by
  intro rs
  induction rs with
  | nil =>
    intro m nd dc out h
    have hout : out = (m, nd, dc) := by simpa [Step3.dedupLoop] using h.symm
    subst hout
    simp
  | cons r rs ih =>
    intro m nd dc out h
    cases hk : Step3.doiKey r with
    | none =>
      rw [show Step3.dedupLoop (r :: rs) m nd dc = none from by
        simp [Step3.dedupLoop, hk]] at h
      simp at h
    | some o =>
      cases o with
      | none =>
        have h' : Step3.dedupLoop rs m (nd ++ [r]) dc = some out := by
          rw [show Step3.dedupLoop (r :: rs) m nd dc =
              Step3.dedupLoop rs m (nd ++ [r]) dc from by
            simp [Step3.dedupLoop, hk]] at h
          exact h
        rw [ih m (nd ++ [r]) dc out h']
        simp [List.filter_cons, hk]
      | some d =>
        by_cases hm : (alookup m d).isSome
        · have h' : Step3.dedupLoop rs
              (Step3.assocUpdate m d (fun e => Step3.updateDup e r.source)) nd (dc + 1) =
              some out := by
            rw [show Step3.dedupLoop (r :: rs) m nd dc =
                Step3.dedupLoop rs
                  (Step3.assocUpdate m d (fun e => Step3.updateDup e r.source)) nd
                  (dc + 1) from by
              simp [Step3.dedupLoop, hk, hm]] at h
            exact h
          rw [ih _ nd (dc + 1) out h']
          simp [List.filter_cons, hk]
        · have h' : Step3.dedupLoop rs (m ++ [(d, r)]) nd dc = some out := by
            rw [show Step3.dedupLoop (r :: rs) m nd dc =
                Step3.dedupLoop rs (m ++ [(d, r)]) nd dc from by
              simp [Step3.dedupLoop, hk, hm]] at h
            exact h
          rw [ih _ nd dc out h']
          simp [List.filter_cons, hk]

/-- C1: on every run of the deduplicator that completes (a list-valued `DO`
tag aborts the pass with an `AttributeError`, modelled as `none`), the
output retains, per normalized DOI, exactly the first-occurring record of
the flattened input, in original relative order, followed by all records
without a usable DOI, in order.  (`stripDup` discards only the
`_duplicate_sources` bookkeeping that the pass accumulates on retained
records; the output writer skips such `_`-tags.) -/
theorem dedup_first_seen_in_order (rs : List Step3.Rec3) (res : Step3.MergeResult)
    (h : Step3.merge_and_deduplicate rs = some res) :
    res.unique.map Step3.stripDup =
      (Step3.keepFirstByDoi rs []).map Step3.stripDup ++
        (rs.filter (fun r => Step3.doiKey r = some none)).map Step3.stripDup := by
  unfold Step3.merge_and_deduplicate at h
  cases hd : Step3.dedupLoop rs [] [] 0 with
  | none => rw [hd] at h; simp at h
  | some out =>
    rw [hd] at h
    rcases out with ⟨m, nd, dc⟩
    simp only [Option.some.injEq] at h
    have h1 := dedupLoop_fst rs [] [] 0 (m, nd, dc) hd
    have h2 := dedupLoop_snd rs [] [] 0 (m, nd, dc) hd
    simp only [List.map_nil, List.nil_append] at h1 h2
    have h1' : List.map (Step3.stripDup ∘ fun p => p.2) m =
        List.map Step3.stripDup (Step3.keepFirstByDoi rs []) := h1
    rw [← h]
    show (m.map (fun p => p.2) ++ nd).map Step3.stripDup = _
    rw [List.map_append, List.map_map, h1', h2]

/-- Witness for `dedup_first_seen_in_order`: two records sharing a
normalized DOI (one via the `doi:` prefix) and one DOI-less record. -/
theorem dedup_first_seen_in_order_witness :
    Step3.merge_and_deduplicate
        ([⟨Step3.RVal.single (str "10.1/X"), str "acm", [], 0⟩,
          ⟨Step3.RVal.single (str "doi:10.1/x"), str "pubmed", [], 1⟩,
          ⟨Step3.RVal.single (str ""), str "scopus", [], 2⟩] : List Step3.Rec3) =
      some (⟨[⟨Step3.RVal.single (str "10.1/X"), str "acm",
               [str "acm", str "pubmed"], 0⟩,
              ⟨Step3.RVal.single (str ""), str "scopus", [], 2⟩], 1, 3⟩ :
        Step3.MergeResult) ∧
    (⟨[⟨Step3.RVal.single (str "10.1/X"), str "acm", [str "acm", str "pubmed"], 0⟩,
       ⟨Step3.RVal.single (str ""), str "scopus", [], 2⟩], 1, 3⟩ :
        Step3.MergeResult).unique.map Step3.stripDup =
      (Step3.keepFirstByDoi
          ([⟨Step3.RVal.single (str "10.1/X"), str "acm", [], 0⟩,
            ⟨Step3.RVal.single (str "doi:10.1/x"), str "pubmed", [], 1⟩,
            ⟨Step3.RVal.single (str ""), str "scopus", [], 2⟩] : List Step3.Rec3)
          []).map Step3.stripDup ++
        (([⟨Step3.RVal.single (str "10.1/X"), str "acm", [], 0⟩,
           ⟨Step3.RVal.single (str "doi:10.1/x"), str "pubmed", [], 1⟩,
           ⟨Step3.RVal.single (str ""), str "scopus", [], 2⟩] : List Step3.Rec3).filter
          (fun r => Step3.doiKey r = some none)).map Step3.stripDup :=
  ⟨by decide,
   dedup_first_seen_in_order
     ([⟨Step3.RVal.single (str "10.1/X"), str "acm", [], 0⟩,
       ⟨Step3.RVal.single (str "doi:10.1/x"), str "pubmed", [], 1⟩,
       ⟨Step3.RVal.single (str ""), str "scopus", [], 2⟩] : List Step3.Rec3)
     (⟨[⟨Step3.RVal.single (str "10.1/X"), str "acm", [str "acm", str "pubmed"], 0⟩,
        ⟨Step3.RVal.single (str ""), str "scopus", [], 2⟩], 1, 3⟩ : Step3.MergeResult)
     (by decide)⟩

theorem journalLoop_spec (targets : List Str) : ∀ (rs kept : List Filters.RecA)
    (ms us : List Str) (nj : Nat),
    Step4.journalLoop targets rs kept ms us nj =
      (kept ++ rs.filter (Step4.journalKeepB targets),
       ⟨ms ++ rs.filterMap (Step4.journalMatchedName targets),
        us ++ rs.filterMap (Step4.journalRejName targets),
        nj + (rs.filter Step4.journalMissingB).length⟩) := by
  intro rs
  induction rs with
  | nil => intro kept ms us nj; simp [Step4.journalLoop]
  | cons r rs ih =>
    intro kept ms us nj
    cases hj : Step4.get_journal_from_record r with
    | none =>
      rw [show Step4.journalLoop targets (r :: rs) kept ms us nj =
          Step4.journalLoop targets rs kept ms us (nj + 1) from by
        simp [Step4.journalLoop, hj]]
      rw [ih]
      simp [Step4.journalKeepB, Step4.journalMatchedName, Step4.journalRejName,
        Step4.journalMissingB, List.filter_cons, List.filterMap_cons, hj]
      omega
    | some j =>
      by_cases hj0 : j = []
      · subst hj0
        rw [show Step4.journalLoop targets (r :: rs) kept ms us nj =
            Step4.journalLoop targets rs kept ms us (nj + 1) from by
          simp [Step4.journalLoop, hj]]
        rw [ih]
        simp [Step4.journalKeepB, Step4.journalMatchedName, Step4.journalRejName,
          Step4.journalMissingB, Step4.matches_target_journal,
          List.filter_cons, List.filterMap_cons, hj]
        omega
      · cases hmt : Step4.matches_target_journal j targets with
        | some tgt =>
          rw [show Step4.journalLoop targets (r :: rs) kept ms us nj =
              Step4.journalLoop targets rs (kept ++ [r]) (ms ++ [tgt]) us nj from by
            simp [Step4.journalLoop, hj, hj0, hmt]]
          rw [ih]
          simp [Step4.journalKeepB, Step4.journalMatchedName, Step4.journalRejName,
            Step4.journalMissingB, List.filter_cons, List.filterMap_cons, hj, hj0, hmt]
        | none =>
          rw [show Step4.journalLoop targets (r :: rs) kept ms us nj =
              Step4.journalLoop targets rs kept ms (us ++ [j]) nj from by
            simp [Step4.journalLoop, hj, hj0, hmt]]
          rw [ih]
          simp [Step4.journalKeepB, Step4.journalMatchedName, Step4.journalRejName,
            Step4.journalMissingB, List.filter_cons, List.filterMap_cons, hj, hj0, hmt]

theorem contentLoop_kept (extract : Filters.RecA → Step6.Signals) :
    ∀ (rs kept : List Filters.RecA) (st : Step6.ContentStats),
    (Step6.contentLoop extract rs kept st).1 =
      kept ++ rs.filter (fun r => (Step6.should_keep_record (extract r)).1) := by
  intro rs
  induction rs with
  | nil => intro kept st; simp [Step6.contentLoop]
  | cons r rs ih =>
    intro kept st
    rcases hsk : Step6.should_keep_record (extract r) with ⟨keep, reason⟩
    cases keep with
    | true =>
      rw [show Step6.contentLoop extract (r :: rs) kept st =
          Step6.contentLoop extract rs (kept ++ [r])
            { st with
              keptReasons := st.keptReasons ++ [reason]
              keptExamples :=
                if st.keptExamples.length < 3 then
                  st.keptExamples ++ [(Step6.get_title_from_record r, reason)]
                else st.keptExamples } from by
        simp [Step6.contentLoop, hsk]]
      rw [ih]
      simp [List.filter_cons, hsk]
    | false =>
      rw [show Step6.contentLoop extract (r :: rs) kept st =
          Step6.contentLoop extract rs kept
            { st with
              removedReasons := st.removedReasons ++ [reason]
              removedExamples :=
                if st.removedExamples.length < 3 then
                  st.removedExamples ++ [(Step6.get_title_from_record r, reason)]
                else st.removedExamples } from by
        simp [Step6.contentLoop, hsk]]
      rw [ih]
      simp [List.filter_cons, hsk]

theorem contentLoop_removedReasons (extract : Filters.RecA → Step6.Signals) :
    ∀ (rs kept : List Filters.RecA) (st : Step6.ContentStats),
    (Step6.contentLoop extract rs kept st).2.removedReasons =
      st.removedReasons ++
        (rs.filter (fun r => !(Step6.should_keep_record (extract r)).1)).map
          (fun r => (Step6.should_keep_record (extract r)).2) := by
  intro rs
  induction rs with
  | nil => intro kept st; simp [Step6.contentLoop]
  | cons r rs ih =>
    intro kept st
    rcases hsk : Step6.should_keep_record (extract r) with ⟨keep, reason⟩
    cases keep with
    | true =>
      rw [show Step6.contentLoop extract (r :: rs) kept st =
          Step6.contentLoop extract rs (kept ++ [r])
            { st with
              keptReasons := st.keptReasons ++ [reason]
              keptExamples :=
                if st.keptExamples.length < 3 then
                  st.keptExamples ++ [(Step6.get_title_from_record r, reason)]
                else st.keptExamples } from by
        simp [Step6.contentLoop, hsk]]
      rw [ih]
      simp [List.filter_cons, hsk]
    | false =>
      rw [show Step6.contentLoop extract (r :: rs) kept st =
          Step6.contentLoop extract rs kept
            { st with
              removedReasons := st.removedReasons ++ [reason]
              removedExamples :=
                if st.removedExamples.length < 3 then
                  st.removedExamples ++ [(Step6.get_title_from_record r, reason)]
                else st.removedExamples } from by
        simp [Step6.contentLoop, hsk]]
      rw [ih]
      simp [List.filter_cons, hsk]

theorem contentLoop_removedExamples_le (extract : Filters.RecA → Step6.Signals) :
    ∀ (rs kept : List Filters.RecA) (st : Step6.ContentStats),
    st.removedExamples.length ≤ 3 →
    (Step6.contentLoop extract rs kept st).2.removedExamples.length ≤ 3 := by
  intro rs
  induction rs with
  | nil => intro kept st h; simpa [Step6.contentLoop] using h
  | cons r rs ih =>
    intro kept st h
    rcases hsk : Step6.should_keep_record (extract r) with ⟨keep, reason⟩
    cases keep with
    | true =>
      rw [show Step6.contentLoop extract (r :: rs) kept st =
          Step6.contentLoop extract rs (kept ++ [r])
            { st with
              keptReasons := st.keptReasons ++ [reason]
              keptExamples :=
                if st.keptExamples.length < 3 then
                  st.keptExamples ++ [(Step6.get_title_from_record r, reason)]
                else st.keptExamples } from by
        simp [Step6.contentLoop, hsk]]
      exact ih _ _ h
    | false =>
      rw [show Step6.contentLoop extract (r :: rs) kept st =
          Step6.contentLoop extract rs kept
            { st with
              removedReasons := st.removedReasons ++ [reason]
              removedExamples :=
                if st.removedExamples.length < 3 then
                  st.removedExamples ++ [(Step6.get_title_from_record r, reason)]
                else st.removedExamples } from by
        simp [Step6.contentLoop, hsk]]
      apply ih
      by_cases hc : st.removedExamples.length < 3
      · simp only [hc, if_pos, List.length_append, List.length_singleton]
        omega
      · simpa [hc] using h

/-- C4 counterexample: two distinct records, both rejected by the journal
filter, produce identical stage outputs — the output retains only aggregate
counts, so neither rejected record is preserved in any rejected set. -/
theorem rejected_records_not_preserved :
    ([(str "TI", [str "A"]), (str "JO", [str "Some Journal"])] : Filters.RecA) ≠
      ([(str "TI", [str "B"]), (str "JO", [str "Some Journal"])] : Filters.RecA) ∧
    Step4.filter_by_journal [[(str "TI", [str "A"]), (str "JO", [str "Some Journal"])]]
        Step4.TARGET_JOURNALS =
      Step4.filter_by_journal [[(str "TI", [str "B"]), (str "JO", [str "Some Journal"])]]
        Step4.TARGET_JOURNALS ∧
    (Step4.filter_by_journal [[(str "TI", [str "A"]), (str "JO", [str "Some Journal"])]]
        Step4.TARGET_JOURNALS).1 = [] := by
  refine ⟨by decide, by decide, by decide⟩

/-- C4 amended: each filter stage outputs the kept records in input order,
and for rejections only aggregates — the journal filter a stream of matched
targets, a stream of unmatched non-empty journal names and a count of records
whose journal is missing or strips to the empty string, the
content filter per-record reason streams and at most three example
title/reason pairs; the rejected records themselves are not preserved in the
stage output. -/
theorem filter_stages_keep_only_aggregates_of_rejects
    (targets : List Str) (rs : List Filters.RecA)
    (extract : Filters.RecA → Step6.Signals) :
    Step4.filter_by_journal rs targets =
      (rs.filter (Step4.journalKeepB targets),
       ⟨rs.filterMap (Step4.journalMatchedName targets),
        rs.filterMap (Step4.journalRejName targets),
        (rs.filter Step4.journalMissingB).length⟩) ∧
    (Step6.filter_by_content extract rs).1 =
      rs.filter (fun r => (Step6.should_keep_record (extract r)).1) ∧
    (Step6.filter_by_content extract rs).2.removedReasons =
      (rs.filter (fun r => !(Step6.should_keep_record (extract r)).1)).map
        (fun r => (Step6.should_keep_record (extract r)).2) ∧
    (Step6.filter_by_content extract rs).2.removedExamples.length ≤ 3 := by
  refine ⟨?_, ?_, ?_, ?_⟩
  · have h := journalLoop_spec targets rs [] [] [] 0
    simpa [Step4.filter_by_journal] using h
  · have h := contentLoop_kept extract rs [] ⟨[], [], [], []⟩
    simpa [Step6.filter_by_content] using h
  · have h := contentLoop_removedReasons extract rs [] ⟨[], [], [], []⟩
    simpa [Step6.filter_by_content] using h
  · have h := contentLoop_removedExamples_le extract rs [] ⟨[], [], [], []⟩ (by simp)
    simpa [Step6.filter_by_content] using h

theorem processRecord_none (R : Step9.Rules9) (i : Nat) (r : Step9.Rec9)
    (h : Step9.processRecord R i r = none) :
    Step9.hasIcdWord (Step9.textNorm (Step9.get_text_content r)) = false := by
  by_cases hicd : Step9.hasIcdWord (Step9.textNorm (Step9.get_text_content r)) = true
  · rw [Step9.processRecord] at h
    simp [hicd] at h
  · simpa using hicd

theorem processRecord_some (R : Step9.Rules9) (i : Nat) (r : Step9.Rec9)
    (row : Step9.Row) (k : Step9.Key) (e : Step9.Entry)
    (h : Step9.processRecord R i r = some (row, k, e)) :
    e.record = r ∧ Step9.hasIcdWord (Step9.textNorm (Step9.get_text_content r)) = true := by
  by_cases hicd : Step9.hasIcdWord (Step9.textNorm (Step9.get_text_content r)) = true
  · rw [Step9.processRecord] at h
    simp only [hicd, Bool.not_true, Bool.false_eq_true, if_false, Option.some.injEq] at h
    refine ⟨?_, hicd⟩
    have hrec := congrArg (fun x => x.2.2.record) h
    exact hrec.symm
  · rw [Step9.processRecord] at h
    simp only [Bool.not_eq_true] at hicd
    simp [hicd] at h

theorem tagLoop_skipped (R : Step9.Rules9) : ∀ (rs : List Step9.Rec9) (i : Nat)
    (tr : List Step9.Row) (bk : List (Step9.Key × Step9.Entry)) (sk : Nat),
    (Step9.tagLoop R rs i tr bk sk).2.2 =
      sk + (rs.filter (fun r =>
        !Step9.hasIcdWord (Step9.textNorm (Step9.get_text_content r)))).length := by
  intro rs
  induction rs with
  | nil => intro i tr bk sk; simp [Step9.tagLoop]
  | cons r rs ih =>
    intro i tr bk sk
    cases hpr : Step9.processRecord R i r with
    | none =>
      have hicd := processRecord_none R i r hpr
      rw [show Step9.tagLoop R (r :: rs) i tr bk sk =
          Step9.tagLoop R rs (i + 1) tr bk (sk + 1) from by simp [Step9.tagLoop, hpr]]
      rw [ih]
      simp [List.filter_cons, hicd]
      omega
    | some v =>
      rcases v with ⟨row, k, e⟩
      have hicd := (processRecord_some R i r row k e hpr).2
      rw [show Step9.tagLoop R (r :: rs) i tr bk sk =
          Step9.tagLoop R rs (i + 1) (tr ++ [row]) (bk ++ [(k, e)]) sk from by
        simp [Step9.tagLoop, hpr]]
      rw [ih]
      simp [List.filter_cons, hicd]

theorem tagLoop_tagged_length (R : Step9.Rules9) : ∀ (rs : List Step9.Rec9) (i : Nat)
    (tr : List Step9.Row) (bk : List (Step9.Key × Step9.Entry)) (sk : Nat),
    (Step9.tagLoop R rs i tr bk sk).1.length =
      tr.length + (rs.filter (fun r =>
        Step9.hasIcdWord (Step9.textNorm (Step9.get_text_content r)))).length := by
  intro rs
  induction rs with
  | nil => intro i tr bk sk; simp [Step9.tagLoop]
  | cons r rs ih =>
    intro i tr bk sk
    cases hpr : Step9.processRecord R i r with
    | none =>
      have hicd := processRecord_none R i r hpr
      rw [show Step9.tagLoop R (r :: rs) i tr bk sk =
          Step9.tagLoop R rs (i + 1) tr bk (sk + 1) from by simp [Step9.tagLoop, hpr]]
      rw [ih]
      simp [List.filter_cons, hicd]
    | some v =>
      rcases v with ⟨row, k, e⟩
      have hicd := (processRecord_some R i r row k e hpr).2
      rw [show Step9.tagLoop R (r :: rs) i tr bk sk =
          Step9.tagLoop R rs (i + 1) (tr ++ [row]) (bk ++ [(k, e)]) sk from by
        simp [Step9.tagLoop, hpr]]
      rw [ih]
      simp [List.filter_cons, hicd]
      omega

theorem tagLoop_bucketed_icd (R : Step9.Rules9) : ∀ (rs : List Step9.Rec9) (i : Nat)
    (tr : List Step9.Row) (bk : List (Step9.Key × Step9.Entry)) (sk : Nat),
    ∀ p ∈ (Step9.tagLoop R rs i tr bk sk).2.1,
      p ∈ bk ∨
        Step9.hasIcdWord (Step9.textNorm (Step9.get_text_content p.2.record)) = true := by
  intro rs
  induction rs with
  | nil =>
    intro i tr bk sk p hp
    exact Or.inl (by simpa [Step9.tagLoop] using hp)
  | cons r rs ih =>
    intro i tr bk sk p hp
    cases hpr : Step9.processRecord R i r with
    | none =>
      rw [show Step9.tagLoop R (r :: rs) i tr bk sk =
          Step9.tagLoop R rs (i + 1) tr bk (sk + 1) from by simp [Step9.tagLoop, hpr]] at hp
      exact ih (i + 1) tr bk (sk + 1) p hp
    | some v =>
      rcases v with ⟨row, k, e⟩
      rw [show Step9.tagLoop R (r :: rs) i tr bk sk =
          Step9.tagLoop R rs (i + 1) (tr ++ [row]) (bk ++ [(k, e)]) sk from by
        simp [Step9.tagLoop, hpr]] at hp
      rcases ih (i + 1) (tr ++ [row]) (bk ++ [(k, e)]) sk p hp with hin | hicd
      · rcases List.mem_append.mp hin with hin | hin
        · exact Or.inl hin
        · rcases List.mem_singleton.mp hin with rfl
          obtain ⟨he, hicd⟩ := processRecord_some R i r row k e hpr
          exact Or.inr (by simpa [he] using hicd)
      · exact Or.inr hicd

theorem mem_sortDescInsert (e x : Step9.Entry) : ∀ l : List Step9.Entry,
    x ∈ Step9.sortDescInsert e l → x = e ∨ x ∈ l := by
  intro l
  induction l with
  | nil => intro h; simpa [Step9.sortDescInsert] using h
  | cons y ys ih =>
    intro h
    rw [Step9.sortDescInsert] at h
    by_cases hc : Step9.keyLt (Step9.entryKey e) (Step9.entryKey y) = true
    · rw [if_pos hc] at h
      rcases List.mem_cons.mp h with rfl | h
      · exact Or.inr (List.mem_cons_self _ _)
      · rcases ih h with h | h
        · exact Or.inl h
        · exact Or.inr (List.mem_cons_of_mem _ h)
    · rw [if_neg hc] at h
      rcases List.mem_cons.mp h with rfl | h
      · exact Or.inl rfl
      · exact Or.inr h

theorem mem_sortDesc (x : Step9.Entry) : ∀ l : List Step9.Entry,
    x ∈ Step9.sortDesc l → x ∈ l := by
  intro l
  induction l with
  | nil => intro h; simp [Step9.sortDesc] at h
  | cons e es ih =>
    intro h
    rw [Step9.sortDesc] at h
    rcases mem_sortDescInsert e x (Step9.sortDesc es) h with rfl | h
    · exact List.mem_cons_self _ _
    · exact List.mem_cons_of_mem _ (ih h)

theorem mem_catMap {α β : Type _} (f : α → List β) (x : β) : ∀ l : List α,
    x ∈ catMap f l → ∃ a ∈ l, x ∈ f a := by
  intro l
  induction l with
  | nil => intro h; simp [catMap] at h
  | cons a as ih =>
    intro h
    rcases List.mem_append.mp (by simpa [catMap] using h) with h | h
    · exact ⟨a, List.mem_cons_self _ _, h⟩
    · rcases ih h with ⟨b, hb, hx⟩
      exact ⟨b, List.mem_cons_of_mem _ hb, hx⟩

theorem selectFromBuckets_entry_mem (bk : List (Step9.Key × Step9.Entry)) :
    ∀ p ∈ Step9.selectFromBuckets bk, ∃ q ∈ bk, q.2 = p.2 := by
  intro p hp
  rcases mem_catMap _ p _ hp with ⟨k, _, hin⟩
  rcases List.mem_map.mp hin with ⟨e, he, rfl⟩
  have he' : e ∈ Step9.sortDesc (Step9.itemsFor bk k) := List.take_subset _ _ he
  have he'' : e ∈ Step9.itemsFor bk k := mem_sortDesc e _ he'
  rcases List.mem_map.mp he'' with ⟨q, hq, rfl⟩
  exact ⟨q, List.mem_filter.mp hq |>.1, rfl⟩

/-- C10: a record whose combined title/abstract/keywords text has no
case-insensitive word match for `icd` is excluded from representative
selection entirely — it yields no tagged row, enters no bucket, is never
selected, and is accounted for only by the aggregate skipped count. -/
theorem no_icd_mention_skipped_entirely (R : Step9.Rules9) (rs : List Step9.Rec9) :
    (Step9.select_representatives R rs).skipped =
      (rs.filter (fun r =>
        !Step9.hasIcdWord (Step9.textNorm (Step9.get_text_content r)))).length ∧
    (Step9.select_representatives R rs).taggedRows.length =
      (rs.filter (fun r =>
        Step9.hasIcdWord (Step9.textNorm (Step9.get_text_content r)))).length ∧
    (Step9.select_representatives R rs).bucketed.all
      (fun p => Step9.hasIcdWord (Step9.textNorm (Step9.get_text_content p.2.record))) = true ∧
    (Step9.select_representatives R rs).selected.all
      (fun p => Step9.hasIcdWord (Step9.textNorm (Step9.get_text_content p.2.record))) = true := by
  have hsk := tagLoop_skipped R rs 1 [] [] 0
  have htr := tagLoop_tagged_length R rs 1 [] [] 0
  have hbk := tagLoop_bucketed_icd R rs 1 [] [] 0
  unfold Step9.select_representatives
  rcases ht : Step9.tagLoop R rs 1 [] [] 0 with ⟨tr, bk, sk⟩
  rw [ht] at hsk htr hbk
  simp only [List.length_nil, Nat.zero_add] at hsk htr
  simp only [Step9.TOTAL_CAP]
  have hbk' : ∀ p ∈ bk,
      Step9.hasIcdWord (Step9.textNorm (Step9.get_text_content p.2.record)) = true := by
    intro p hp
    rcases hbk p hp with hin | hicd
    · simp at hin
    · exact hicd
  refine ⟨hsk, htr, List.all_eq_true.mpr hbk', List.all_eq_true.mpr ?_⟩
  intro p hp
  rcases selectFromBuckets_entry_mem bk p hp with ⟨q, hq, hqe⟩
  rw [← hqe]
  exact hbk' q hq

theorem memStr_iff_mem (t : Str) : ∀ l : List Str, memStr t l = true ↔ t ∈ l := by
  intro l
  induction l with
  | nil => simp [memStr]
  | cons s ss ih =>
    by_cases hs : s = t
    · subst hs; simp [memStr]
    · have ht : ¬ t = s := fun h => hs h.symm
      simp [memStr, hs, ih, ht]

theorem alookup_append {α : Type _} (t : Str) : ∀ a b : List (Str × α),
    alookup (a ++ b) t =
      match alookup a t with
      | some v => some v
      | none => alookup b t := by
  intro a b
  induction a with
  | nil => simp [alookup]
  | cons p ps ih =>
    by_cases hp : p.1 = t <;> simp [alookup, hp, ih]

theorem alookup_none_forall {α : Type _} (t : Str) : ∀ m : List (Str × α),
    alookup m t = none → ∀ p ∈ m, p.1 ≠ t := by
  intro m
  induction m with
  | nil => intro _ p hp; simp at hp
  | cons q qs ih =>
    intro h p hp
    by_cases hq : q.1 = t
    · simp [alookup, hq] at h
    · rcases List.mem_cons.mp hp with rfl | hp
      · exact hq
      · exact ih (by simpa [alookup, hq] using h) p hp

theorem alookup_forall_none {α : Type _} (t : Str) : ∀ m : List (Str × α),
    (∀ p ∈ m, p.1 ≠ t) → alookup m t = none := by
  intro m
  induction m with
  | nil => intro _; rfl
  | cons q qs ih =>
    intro h
    have hq : q.1 ≠ t := h q (List.mem_cons_self _ _)
    simp only [alookup, if_neg hq]
    exact ih (fun p hp => h p (List.mem_cons_of_mem _ hp))

theorem alookup_some_mem {α : Type _} (t : Str) : ∀ (m : List (Str × α)) (v : α),
    alookup m t = some v → (t, v) ∈ m := by
  intro m
  induction m with
  | nil => intro v h; simp [alookup] at h
  | cons q qs ih =>
    intro v h
    by_cases hq : q.1 = t
    · simp only [alookup, if_pos hq, Option.some.injEq] at h
      have hqv : (t, v) = q := by rw [← hq, ← h]
      rw [hqv]
      exact List.mem_cons_self _ _
    · exact List.mem_cons_of_mem _ (ih v (by simpa [alookup, hq] using h))

theorem catMap_append {α β : Type _} (f : α → List β) : ∀ a b : List α,
    catMap f (a ++ b) = catMap f a ++ catMap f b := by
  intro a b
  induction a with
  | nil => simp [catMap]
  | cons x xs ih => simp [catMap, ih]

theorem catMap_eq_nil_forall {α β : Type _} (f : α → List β) : ∀ l : List α,
    catMap f l = [] → ∀ a ∈ l, f a = [] := by
  intro l
  induction l with
  | nil => intro _ a ha; simp at ha
  | cons x xs ih =>
    intro h a ha
    rw [show catMap f (x :: xs) = f x ++ catMap f xs from rfl] at h
    rcases List.append_eq_nil.mp h with ⟨h1, h2⟩
    rcases List.mem_cons.mp ha with rfl | ha
    · exact h1
    · exact ih h2 a ha

theorem strStartsWith_nil (s : Str) : strStartsWith s [] = true := by
  cases s <;> rfl

theorem strStartsWith_append_self : ∀ p x : Str, strStartsWith (p ++ x) p = true := by
  intro p
  induction p with
  | nil => intro x; exact strStartsWith_nil x
  | cons c cs ih => intro x; simp [strStartsWith, ih]

theorem length_dropWhile_le' (p : Char → Bool) : ∀ l : Str,
    (l.dropWhile p).length ≤ l.length := by
  intro l
  induction l with
  | nil => simp
  | cons a as ih =>
    rw [List.dropWhile_cons]
    by_cases h : p a
    · rw [if_pos h]; exact Nat.le_trans ih (Nat.le_succ _)
    · rw [if_neg h]

theorem rstripNL_eq_self (l : Str)
    (h : ∀ c, l.reverse.head? = some c → (c = '\n' || c = '\r') = false) :
    rstripNL l = l := by
  unfold rstripNL
  cases hr : l.reverse with
  | nil =>
    have hl : l = [] := List.reverse_eq_nil_iff.mp hr
    simp [hl]
  | cons c cs =>
    have hc := h c (by rw [hr]; rfl)
    rw [List.dropWhile_cons, if_neg (by simp [hc])]
    rw [← hr, List.reverse_reverse]

theorem reverse_head_not_ws (v : Str) (h2 : v.reverse.dropWhile isWs = v.reverse) :
    ∀ c, v.reverse.head? = some c → isWs c = false := by
  intro c hc
  cases hr : v.reverse with
  | nil => rw [hr] at hc; simp at hc
  | cons d ds =>
    rw [hr] at hc
    simp only [List.head?] at hc
    have hdc : d = c := by injection hc
    subst hdc
    by_cases hws : isWs d = true
    · rw [hr, List.dropWhile_cons, if_pos hws] at h2
      have h1 := congrArg List.length h2
      have h3 := length_dropWhile_le' isWs ds
      simp at h1
      omega
    · simpa using hws

theorem not_ws_not_nl (c : Char) (h : isWs c = false) : (c = '\n' || c = '\r') = false := by
  by_cases h1 : c = '\n'
  · rw [h1] at h; exact absurd h (by decide)
  · by_cases h2 : c = '\r'
    · rw [h2] at h; exact absurd h (by decide)
    · simp [h1, h2]

theorem trim_of_fixed (v : Str) (h1 : v.dropWhile isWs = v)
    (h2 : v.reverse.dropWhile isWs = v.reverse) : trimStr v = v := by
  unfold trimStr
  rw [h1, h2, List.reverse_reverse]

theorem trimStr_two (c1 c2 : Char) (h1 : isWs c1 = false) (h2 : isWs c2 = false) :
    trimStr [c1, c2] = [c1, c2] := by
  simp [trimStr, List.dropWhile_cons, h1, h2]

theorem sep_append_cons (v : Str) :
    (str "  - " ++ v : Str) = ' ' :: ' ' :: '-' :: ' ' :: v := rfl

theorem rstripNL_tagline (c1 c2 : Char) (v : Str)
    (h2 : v.reverse.dropWhile isWs = v.reverse) :
    rstripNL (c1 :: c2 :: (str "  - " ++ v)) = c1 :: c2 :: (str "  - " ++ v) := by
  apply rstripNL_eq_self
  intro c hc
  cases hv : v with
  | nil =>
    subst hv
    have : c = ' ' := by
      have hline : (c1 :: c2 :: (str "  - " ++ ([] : Str))).reverse.head? = some ' ' := by
        rfl
      rw [hline] at hc
      exact (Option.some.injEq _ _).mp hc.symm
    rw [this]
    decide
  | cons d ds =>
    have hvne : v ≠ [] := by rw [hv]; simp
    have hr : (c1 :: c2 :: (str "  - " ++ v)).reverse.head? = v.reverse.head? := by
      rw [List.reverse_cons, List.reverse_cons, List.reverse_append]
      cases hvr : v.reverse with
      | nil => exact absurd (List.reverse_eq_nil_iff.mp hvr) hvne
      | cons e es => simp
    rw [hr] at hc
    exact not_ws_not_nl c (reverse_head_not_ws v h2 c hc)

theorem tagline_not_er (c1 c2 : Char) (h : ¬(c1 = 'E' ∧ c2 = 'R')) (v : Str) :
    strStartsWith (c1 :: c2 :: (str "  - " ++ v)) (str "ER  - ") = false := by
  have her : str "ER  - " = 'E' :: 'R' :: ' ' :: ' ' :: '-' :: ' ' :: [] := rfl
  rw [her, sep_append_cons]
  by_cases e1 : c1 = 'E'
  · by_cases e2 : c2 = 'R'
    · exact absurd ⟨e1, e2⟩ h
    · simp [strStartsWith, e2]
  · simp [strStartsWith, e1]

theorem splitSep_tagline (c1 c2 : Char) (h1 : isWs c1 = false) (h2 : isWs c2 = false)
    (v : Str) : splitSep (c1 :: c2 :: (str "  - " ++ v)) = some ([c1, c2], v) := by
  have hc1 : ¬ c1 = ' ' := by intro h; rw [h] at h1; exact absurd h1 (by decide)
  have hc2 : ¬ c2 = ' ' := by intro h; rw [h] at h2; exact absurd h2 (by decide)
  have hsep : str "  - " = ' ' :: ' ' :: '-' :: ' ' :: [] := rfl
  rw [sep_append_cons]
  rw [splitSep, if_neg (by rw [hsep]; simp [strStartsWith, hc1])]
  rw [splitSep, if_neg (by rw [hsep]; simp [strStartsWith, hc2])]
  rw [splitSep, if_pos (by rw [hsep]; simp [strStartsWith, strStartsWith_nil])]
  simp [List.drop]

theorem appendTag_new (cur : Filters.RecA) (t v : Str) (h : alookup cur t = none) :
    Filters.appendTag cur t v = cur ++ [(t, [v])] := by
  unfold Filters.appendTag
  rw [if_neg (by simp [h])]

theorem appendTag_last (pre : Filters.RecA) (t : Str) (acc : List Str) (v : Str)
    (h : alookup pre t = none) :
    Filters.appendTag (pre ++ [(t, acc)]) t v = pre ++ [(t, acc ++ [v])] := by
  have hs : (alookup (pre ++ [(t, acc)]) t).isSome := by
    rw [alookup_append, h]
    simp [alookup]
  unfold Filters.appendTag
  rw [if_pos hs, List.map_append]
  have hpre : pre.map (fun p => if p.1 = t then (p.1, p.2 ++ [v]) else p) = pre := by
    apply List.map_congr_left ?_ |>.trans (List.map_id _)
    intro p hp
    rw [if_neg (alookup_none_forall t pre h p hp)]
    rfl
  rw [hpre]
  simp [alookup]

theorem foldl_appendTag (t : Str) : ∀ (vs : List Str) (pre : Filters.RecA)
    (acc : List Str), alookup pre t = none →
    List.foldl (fun c v => Filters.appendTag c t v) (pre ++ [(t, acc)]) vs =
      pre ++ [(t, acc ++ vs)] := by
  intro vs
  induction vs with
  | nil => intro pre acc h; simp
  | cons v vs ih =>
    intro pre acc h
    rw [List.foldl_cons, appendTag_last pre t acc v h, ih pre (acc ++ [v]) h]
    simp

theorem foldl_appendTag_new (t : Str) (vs : List Str) (hvs : vs ≠ [])
    (cur : Filters.RecA) (h : alookup cur t = none) :
    List.foldl (fun c v => Filters.appendTag c t v) cur vs = cur ++ [(t, vs)] := by
  cases vs with
  | nil => exact absurd rfl hvs
  | cons v vs' =>
    rw [List.foldl_cons, appendTag_new cur t v h, foldl_appendTag t vs' cur [v] h]
    simp

theorem parseLoop_tagLines (t : Str) (ht : Filters.validTagB t = true) :
    ∀ (vs : List Str), vs.all Filters.validValueB = true →
    ∀ (rest : List Str) (cur : Filters.RecA),
      Filters.parseLoop (Filters.tagLines t vs ++ rest) cur =
        Filters.parseLoop rest
          (List.foldl (fun c v => Filters.appendTag c t v) cur vs) := by
  obtain ⟨c1, c2, rfl, h1, h2, her⟩ :
      ∃ c1 c2, t = [c1, c2] ∧ isWs c1 = false ∧ isWs c2 = false ∧
        ¬(c1 = 'E' ∧ c2 = 'R') := by
    unfold Filters.validTagB at ht
    cases t with
    | nil => simp at ht
    | cons a t' =>
      cases t' with
      | nil => simp at ht
      | cons b t'' =>
        cases t'' with
        | nil =>
          simp only [Bool.and_eq_true, Bool.not_eq_true', decide_eq_true_eq] at ht
          refine ⟨a, b, rfl, ht.1.1, ht.1.2, ?_⟩
          rintro ⟨rfl, rfl⟩
          exact ht.2 rfl
        | cons _ _ => simp at ht
  intro vs
  induction vs with
  | nil => intro _ rest cur; simp [Filters.tagLines]
  | cons v vs ih =>
    intro hvv rest cur
    rw [List.all_cons, Bool.and_eq_true] at hvv
    obtain ⟨hv, hvs⟩ := hvv
    unfold Filters.validValueB at hv
    simp only [Bool.and_eq_true, decide_eq_true_eq] at hv
    obtain ⟨⟨hv1, hv2⟩, _⟩ := hv
    have hline : Filters.tagLines [c1, c2] (v :: vs) ++ rest =
        (c1 :: c2 :: (str "  - " ++ v)) :: (Filters.tagLines [c1, c2] vs ++ rest) := by
      simp [Filters.tagLines]
    rw [hline]
    simp only [Filters.parseLoop]
    rw [rstripNL_tagline c1 c2 v hv2]
    rw [if_neg (by simp [tagline_not_er c1 c2 her v])]
    rw [if_pos (by simp)]
    rw [splitSep_tagline c1 c2 h1 h2 v]
    simp only [trimStr_two c1 c2 h1 h2, trim_of_fixed v hv1 hv2, List.foldl_cons]
    exact ih hvs rest (Filters.appendTag cur [c1, c2] v)

theorem serializeRecord_eq (r : Filters.RecA) :
    Filters.serializeRecord r =
      catMap (fun g => Filters.tagLines g.1 g.2) (Filters.reorderRecord r) ++
        [str "ER  - ", []] := by
  unfold Filters.serializeRecord Filters.reorderRecord
  rw [catMap_append]
  have hpart1 : ∀ l : List Str,
      catMap (fun t => match alookup r t with
                       | some vs => Filters.tagLines t vs
                       | none => []) l =
        catMap (fun g => Filters.tagLines g.1 g.2)
          (catMap (fun t => match alookup r t with
                            | some vs => [(t, vs)]
                            | none => []) l) := by
    intro l
    induction l with
    | nil => rfl
    | cons t' l ih =>
      cases h : alookup r t' <;> simp [catMap, h, ih]
  have hpart2 : ∀ m : Filters.RecA,
      catMap (fun p => if memStr p.1 Filters.tag_order then []
                       else Filters.tagLines p.1 p.2) m =
        catMap (fun g => Filters.tagLines g.1 g.2)
          (catMap (fun p => if memStr p.1 Filters.tag_order then [] else [p]) m) := by
    intro m
    induction m with
    | nil => rfl
    | cons p m ih =>
      by_cases h : memStr p.1 Filters.tag_order <;> simp [catMap, h, ih]
  rw [hpart1, hpart2, List.append_assoc]

theorem parseLoop_groups : ∀ (gs : Filters.RecA),
    (∀ g ∈ gs, Filters.validTagB g.1 = true ∧ g.2 ≠ [] ∧
      g.2.all Filters.validValueB = true) →
    (gs.map Prod.fst).Nodup →
    ∀ (rest : List Str) (cur : Filters.RecA), (∀ g ∈ gs, alookup cur g.1 = none) →
    Filters.parseLoop (catMap (fun g => Filters.tagLines g.1 g.2) gs ++ rest) cur =
      Filters.parseLoop rest (cur ++ gs) := by
  intro gs
  induction gs with
  | nil => intro _ _ rest cur _; simp [catMap]
  | cons g gs ih =>
    intro hval hnd rest cur hcur
    have hg := hval g (List.mem_cons_self _ _)
    have hcat : catMap (fun g => Filters.tagLines g.1 g.2) (g :: gs) ++ rest =
        Filters.tagLines g.1 g.2 ++ (catMap (fun g => Filters.tagLines g.1 g.2) gs ++ rest) := by
      simp [catMap]
    rw [hcat]
    rw [parseLoop_tagLines g.1 hg.1 g.2 hg.2.2]
    rw [foldl_appendTag_new g.1 g.2 hg.2.1 cur (hcur g (List.mem_cons_self _ _))]
    rw [show (cur ++ [(g.1, g.2)] : Filters.RecA) = cur ++ [g] from by simp]
    have hnd' : (g.1 :: gs.map Prod.fst).Nodup := by simpa using hnd
    have hnotin : g.1 ∉ gs.map Prod.fst := (List.nodup_cons.mp hnd').1
    have hndtail : (gs.map Prod.fst).Nodup := (List.nodup_cons.mp hnd').2
    rw [ih (fun g' hg' => hval g' (List.mem_cons_of_mem _ hg')) hndtail
        rest (cur ++ [g]) ?_]
    · rw [List.append_assoc]
      rfl
    · intro g' hg'
      rw [alookup_append, hcur g' (List.mem_cons_of_mem _ hg')]
      have hne : ¬ g.1 = g'.1 := by
        intro he
        exact hnotin (he ▸ List.mem_map_of_mem Prod.fst hg')
      simp [alookup, hne]

theorem mem_reorderRecord (r : Filters.RecA) (g : Str × List Str)
    (h : g ∈ Filters.reorderRecord r) : g ∈ r := by
  unfold Filters.reorderRecord at h
  rcases List.mem_append.mp h with h | h
  · rcases mem_catMap _ g _ h with ⟨t, _, hg⟩
    cases ha : alookup r t with
    | none => rw [ha] at hg; simp at hg
    | some vs =>
      rw [ha] at hg
      rcases List.mem_singleton.mp hg with rfl
      exact alookup_some_mem t r vs ha
  · rcases mem_catMap _ g _ h with ⟨p, hp, hg⟩
    by_cases hm : memStr p.1 Filters.tag_order
    · rw [if_pos hm] at hg; simp at hg
    · rw [if_neg hm] at hg
      rcases List.mem_singleton.mp hg with rfl
      exact hp

theorem keys_ordered_part (r : Filters.RecA) : ∀ l : List Str,
    (catMap (fun t => match alookup r t with
                      | some vs => [(t, vs)]
                      | none => []) l).map Prod.fst =
      l.filter (fun t => (alookup r t).isSome) := by
  intro l
  induction l with
  | nil => rfl
  | cons t l ih =>
    cases h : alookup r t <;> simp [catMap, List.filter_cons, h, ih]

theorem keys_rest_part (order : List Str) : ∀ m : Filters.RecA,
    (catMap (fun p => if memStr p.1 order then [] else [p]) m).map Prod.fst =
      (m.filter (fun p => !memStr p.1 order)).map Prod.fst := by
  intro m
  induction m with
  | nil => rfl
  | cons p m ih =>
    by_cases h : memStr p.1 order <;> simp [catMap, List.filter_cons, h, ih]

theorem tag_order_nodup : Filters.tag_order.Nodup := by decide

theorem nodup_reorderRecord (r : Filters.RecA) (hnd : (r.map Prod.fst).Nodup) :
    ((Filters.reorderRecord r).map Prod.fst).Nodup := by
  unfold Filters.reorderRecord
  rw [List.map_append, keys_ordered_part, keys_rest_part]
  apply List.Nodup.append
  · exact List.Nodup.filter _ tag_order_nodup
  · exact List.Nodup.sublist (List.Sublist.map _ (List.filter_sublist _)) hnd
  · intro a ha hb
    have ha' : a ∈ Filters.tag_order := List.mem_of_mem_filter ha
    rcases List.mem_map.mp hb with ⟨p, hp, rfl⟩
    have := (List.mem_filter.mp hp).2
    rw [Bool.not_eq_true'] at this
    exact absurd ((memStr_iff_mem p.1 Filters.tag_order).mpr ha') (by simp [this])

theorem catMap_ne_nil {α β : Type _} (f : α → List β) (l : List α) (a : α)
    (ha : a ∈ l) (hf : f a ≠ []) : catMap f l ≠ [] := by
  intro h
  exact hf (catMap_eq_nil_forall f l h a ha)

theorem reorderRecord_ne_nil (r : Filters.RecA) (hr : r ≠ []) :
    Filters.reorderRecord r ≠ [] := by
  cases r with
  | nil => exact absurd rfl hr
  | cons p r' =>
    unfold Filters.reorderRecord
    intro h
    rcases List.append_eq_nil.mp h with ⟨h1, h2⟩
    by_cases hm : memStr p.1 Filters.tag_order
    · have hp1 : p.1 ∈ Filters.tag_order := (memStr_iff_mem _ _).mp hm
      have hl : alookup (p :: r') p.1 = some p.2 := by simp [alookup]
      exact catMap_ne_nil _ Filters.tag_order p.1 hp1 (by rw [hl]; simp) h1
    · exact catMap_ne_nil _ (p :: r') p (List.mem_cons_self _ _) (by rw [if_neg hm]; simp) h2

theorem parseLoop_record (r : Filters.RecA) (h : Filters.validRecordB r = true)
    (rest : List Str) :
    Filters.parseLoop (Filters.serializeRecord r ++ rest) [] =
      Filters.reorderRecord r :: Filters.parseLoop rest [] := by
  unfold Filters.validRecordB at h
  simp only [Bool.and_eq_true, decide_eq_true_eq, List.all_eq_true] at h
  obtain ⟨⟨hne, hnd⟩, hall⟩ := h
  have hval : ∀ g ∈ Filters.reorderRecord r,
      Filters.validTagB g.1 = true ∧ g.2 ≠ [] ∧ g.2.all Filters.validValueB = true := by
    intro g hg
    have hmem := mem_reorderRecord r g hg
    have hg' := hall g hmem
    simp only [Bool.and_eq_true, decide_eq_true_eq] at hg'
    exact ⟨hg'.1.1, hg'.1.2, List.all_eq_true.mpr hg'.2⟩
  have hstep : Filters.serializeRecord r ++ rest =
      catMap (fun g => Filters.tagLines g.1 g.2) (Filters.reorderRecord r) ++
        ((str "ER  - ") :: ([] : Str) :: rest) := by
    rw [serializeRecord_eq, List.append_assoc]
    rfl
  rw [hstep]
  rw [parseLoop_groups (Filters.reorderRecord r) hval (nodup_reorderRecord r hnd)
      ((str "ER  - ") :: ([] : Str) :: rest) [] (fun g _ => rfl)]
  rw [List.nil_append]
  have her : rstripNL (str "ER  - ") = str "ER  - " := by decide
  conv =>
    lhs
    rw [Filters.parseLoop]
  rw [her]
  rw [if_pos (by decide : strStartsWith (str "ER  - ") (str "ER  - ") = true)]
  rw [if_pos (reorderRecord_ne_nil r hne)]
  conv =>
    lhs
    rw [Filters.parseLoop]
  rw [show rstripNL ([] : Str) = ([] : Str) from rfl]
  rw [if_neg (by decide : ¬ strStartsWith ([] : Str) (str "ER  - ") = true)]
  simp

theorem parse_write_eq_map_reorder : ∀ rs : List Filters.RecA,
    Filters.validRecsB rs = true →
    Filters.parse_ris_file (Filters.write_ris_file rs) =
      rs.map Filters.reorderRecord := by
  intro rs
  induction rs with
  | nil => intro _; rfl
  | cons r rs ih =>
    intro h
    unfold Filters.validRecsB at h
    rw [List.all_cons, Bool.and_eq_true] at h
    have hw : Filters.write_ris_file (r :: rs) =
        Filters.serializeRecord r ++ Filters.write_ris_file rs := rfl
    unfold Filters.parse_ris_file
    rw [hw, parseLoop_record r h.1 (Filters.write_ris_file rs)]
    have := ih h.2
    unfold Filters.parse_ris_file at this
    rw [this]
    rfl

theorem getD_map_of_nil {α : Type _} (f : List α → List α) (hf : f [] = []) :
    ∀ (l : List (List α)) (i : Nat), (l.map f).getD i [] = f (l.getD i []) := by
  intro l
  induction l with
  | nil => intro i; simp [hf]
  | cons x xs ih =>
    intro i
    cases i with
    | zero => simp
    | succ j => simpa using ih j

theorem alookup_ordered_part (r : Filters.RecA) (t : Str) (vs : List Str)
    (hl : alookup r t = some vs) : ∀ l : List Str, t ∈ l →
    alookup (catMap (fun t' => match alookup r t' with
                               | some ws => [(t', ws)]
                               | none => []) l) t = some vs := by
  intro l
  induction l with
  | nil => intro h; simp at h
  | cons t' l ih =>
    intro hmem
    by_cases he : t' = t
    · subst he
      rw [show catMap (fun t' => match alookup r t' with
                                 | some ws => [(t', ws)]
                                 | none => []) (t' :: l) =
            (match alookup r t' with
             | some ws => [(t', ws)]
             | none => []) ++ catMap (fun t' => match alookup r t' with
                                                | some ws => [(t', ws)]
                                                | none => []) l from rfl]
      rw [hl]
      simp [alookup]
    · rw [show catMap (fun t' => match alookup r t' with
                                 | some ws => [(t', ws)]
                                 | none => []) (t' :: l) =
            (match alookup r t' with
             | some ws => [(t', ws)]
             | none => []) ++ catMap (fun t' => match alookup r t' with
                                                | some ws => [(t', ws)]
                                                | none => []) l from rfl]
      have hmem' : t ∈ l := by
        rcases List.mem_cons.mp hmem with h | h
        · exact absurd h.symm he
        · exact h
      rw [alookup_append]
      cases ha : alookup r t' with
      | none => simpa using ih hmem'
      | some ws =>
        have : alookup [(t', ws)] t = none := by simp [alookup, he]
        rw [this]
        exact ih hmem'

theorem alookup_rest_part (order : List Str) (t : Str) (ht : ¬ t ∈ order) :
    ∀ r : Filters.RecA,
    alookup (catMap (fun p => if memStr p.1 order then [] else [p]) r) t =
      alookup r t := by
  intro r
  induction r with
  | nil => rfl
  | cons p r ih =>
    have hcat : catMap (fun p => if memStr p.1 order then [] else [p]) (p :: r) =
        (if memStr p.1 order then [] else [p]) ++
          catMap (fun p => if memStr p.1 order then [] else [p]) r := rfl
    rw [hcat]
    by_cases hp : p.1 = t
    · have hmem : ¬ memStr p.1 order = true := by
        rw [memStr_iff_mem]
        rw [hp]
        exact ht
      rw [if_neg hmem]
      simp [alookup, hp]
    · by_cases hm : memStr p.1 order
      · rw [if_pos hm]
        rw [List.nil_append, ih]
        simp [alookup, hp]
      · rw [if_neg hm]
        rw [alookup_append]
        simp [alookup, hp, ih]

theorem alookup_reorderRecord (r : Filters.RecA) (t : Str) :
    alookup (Filters.reorderRecord r) t = alookup r t := by
  unfold Filters.reorderRecord
  cases hl : alookup r t with
  | none =>
    apply alookup_forall_none
    intro p hp
    exact alookup_none_forall t r hl p (mem_reorderRecord r p (by rw [Filters.reorderRecord]; exact hp))
  | some vs =>
    by_cases hm : t ∈ Filters.tag_order
    · rw [alookup_append, alookup_ordered_part r t vs hl Filters.tag_order hm]
    · rw [alookup_append]
      have hnone : alookup (catMap (fun t' => match alookup r t' with
                                              | some ws => [(t', ws)]
                                              | none => []) Filters.tag_order) t = none := by
        apply alookup_forall_none
        intro p hp
        rcases mem_catMap _ p _ hp with ⟨t', ht', hg⟩
        cases ha : alookup r t' with
        | none => rw [ha] at hg; simp at hg
        | some ws =>
          rw [ha] at hg
          rcases List.mem_singleton.mp hg with rfl
          intro he
          exact hm (he ▸ ht')
      rw [hnone, alookup_rest_part Filters.tag_order t hm r, hl]

/-- C3 counterexample: under the claim's own validity (non-empty lists of
newline-free values), the round trip is not content-preserving — a value with
leading whitespace comes back trimmed. -/
theorem roundtrip_counterexample :
    Filters.parse_ris_file (Filters.write_ris_file [[(str "TI", [str " x"])]]) =
      [[(str "TI", [str "x"])]] ∧
    ¬ alookup ((Filters.parse_ris_file
          (Filters.write_ris_file [[(str "TI", [str " x"])]])).getD 0 []) (str "TI") =
        alookup (([[(str "TI", [str " x"])]] : List Filters.RecA).getD 0 []) (str "TI") := by
  refine ⟨by decide, by decide⟩

/-- C3 amended: for record lists that are serializable — every record
non-empty with distinct two-character non-whitespace tags other than `ER`,
and non-empty lists of stripped, newline-free values — parsing the
serialized lines yields the same number of records with the same
tag→value-list content, order within each tag preserved. -/
theorem ris_write_parse_roundtrip (rs : List Filters.RecA)
    (h : Filters.validRecsB rs = true) :
    (Filters.parse_ris_file (Filters.write_ris_file rs)).length = rs.length ∧
    ∀ (i : Nat) (t : Str),
      alookup ((Filters.parse_ris_file (Filters.write_ris_file rs)).getD i []) t =
        alookup (rs.getD i []) t := by
  have hmap := parse_write_eq_map_reorder rs h
  constructor
  · rw [hmap, List.length_map]
  · intro i t
    rw [hmap, getD_map_of_nil Filters.reorderRecord rfl rs i, alookup_reorderRecord]

/-- Witness for `ris_write_parse_roundtrip` at a concrete two-record list
with an out-of-order unknown tag. -/
theorem ris_write_parse_roundtrip_witness :
    Filters.validRecsB
        [[(str "TI", [str "Paper A"]), (str "ZZ", [str "x", str "y"])],
         [(str "AB", [str "abstract text"])]] = true ∧
    (Filters.parse_ris_file (Filters.write_ris_file
        [[(str "TI", [str "Paper A"]), (str "ZZ", [str "x", str "y"])],
         [(str "AB", [str "abstract text"])]])).length =
      ([[(str "TI", [str "Paper A"]), (str "ZZ", [str "x", str "y"])],
        [(str "AB", [str "abstract text"])]] : List Filters.RecA).length :=
  ⟨by decide,
   (ris_write_parse_roundtrip
      [[(str "TI", [str "Paper A"]), (str "ZZ", [str "x", str "y"])],
       [(str "AB", [str "abstract text"])]] (by decide)).1⟩
